import Mathlib

/-!
Verification of the mas-dm decision-support backend.

This file is a shallow embedding of the core of the repository:

* the data model (`DecisionState`, `ProcessInfo`, `EvaluationOutput`,
  `ResultOutput` from `backend/app/models/domain.py`),
* the two process repositories (`InMemoryProcessRepository` and
  `RedisProcessRepository` from `backend/app/services/redis_repository.py`),
* the workflow state machine (the agent / evaluator nodes of
  `backend/app/core/graph/nodes.py`, driven by `pydantic_graph`),
* the orchestration layer (`ProcessManager` from
  `backend/app/services/process_manager.py`) and the query validation of
  `DecisionService` (`backend/app/services/decision_service.py`).

Python dictionaries are modelled as association lists with insert-in-place
semantics, Redis data structures as explicit lists, datetimes as the ISO
strings the code stores plus an abstract `parseTime : String -> Int`
interpretation of `datetime.fromisoformat(..).timestamp()` (whole seconds),
and the external Reasoning Service (pydantic-ai agents) as an oracle giving
each agent's response as a function of the agent, its call number and the
prompt the engine built for it.  Redis TTLs (`EXPIRE`) and pydantic's
whitespace stripping at model construction are not modelled; no claim below
depends on them.

One deliberate deviation from `domain.py` is documented at `ProcessInfo`.
-/

namespace MasDm

/-! ## Association-list model of Python `dict` -/

/-- Insert (or overwrite in place) a key in an association list; this is the
semantics of `d[k] = v` on a Python `dict` (existing keys keep their
position, new keys are appended). -/
def alInsert {α : Type} (k : String) (v : α) : List (String × α) → List (String × α)
  | [] => [(k, v)]
  | (k2, v2) :: t => if k2 = k then (k, v) :: t else (k2, v2) :: alInsert k v t

/-- Remove a key from an association list (`del d[k]`). -/
def alErase {α : Type} (k : String) (l : List (String × α)) : List (String × α) :=
  l.filter (fun p => p.1 ≠ k)

/-! ## Data model (`backend/app/models/domain.py`) -/

/-- `DecisionState` (domain.py:11): the accumulator threaded through one
workflow run.  Field names and defaults are exactly those of the source. -/
structure DecisionState where
  decision_requested : String := ""
  trigger : String := ""
  root_cause : String := ""
  scope_definition : String := ""
  decision_drafted : String := ""
  goals : String := ""
  stakeholders : String := ""
  complementary_info : String := ""
  complementary_info_num : Nat := 0
  decision_draft_updated : String := ""
  generated_alternatives : String := ""
  alternatives : String := ""
  result : String := ""
  result_comment : String := ""
  best_alternative_result : String := ""
  best_alternative_result_comment : String := ""
deriving DecidableEq

/-- `ResultOutput` (domain.py:123): the structured four-field answer of the
final result agent. -/
structure ResultOutput where
  result : String
  best_alternative_result : String
  result_comment : String
  best_alternative_result_comment : String
deriving DecidableEq

/-- `EvaluationOutput` (domain.py:162): the evaluator verdict. -/
structure EvaluationOutput where
  correct : Bool
  comment : String
deriving DecidableEq

/-- `ProcessInfo` (domain.py:190): the lifecycle envelope of one process.

Deviation note: the pydantic class in `domain.py` omits a `query` field,
yet `ProcessManager.create_process` passes `query=...` (silently dropped by
pydantic's default `extra="ignore"`), `RedisProcessRepository.save` reads
`process.query` (redis_repository.py:361, an `AttributeError` at runtime),
and the repository's own tests assert `retrieved.query`
(tests/test_repository.py:44, tests/test_process_manager.py:29).  We model
the record with the `query` field all of those call sites require; the
omission itself is recorded as a code bug against the round-trip claim. -/
structure ProcessInfo where
  process_id : String
  query : String
  status : String
  result : Option DecisionState
  error : Option String
  created_at : Option String
  completed_at : Option String
deriving DecidableEq

/-! ## `InMemoryProcessRepository` (redis_repository.py:129)

The backing store is a single Python `dict` keyed by `process_id`. -/

namespace InMemoryProcessRepository

/-- The `_storage` dict. -/
abbrev Storage : Type := List (String × ProcessInfo)

/-- `save` (redis_repository.py:153): `self._storage[process.process_id] = process`. -/
def save (s : Storage) (process : ProcessInfo) : Storage :=
  alInsert process.process_id process s

/-- `get` (redis_repository.py:157): `self._storage.get(process_id)`. -/
def get (s : Storage) (process_id : String) : Option ProcessInfo :=
  List.lookup process_id s

/-- `exists` (redis_repository.py:161): `process_id in self._storage`. -/
def existsId (s : Storage) (process_id : String) : Bool :=
  (get s process_id).isSome

/-- `delete` (redis_repository.py:165). -/
def delete (s : Storage) (process_id : String) : Bool × Storage :=
  if (get s process_id).isSome then (true, alErase process_id s) else (false, s)

/-- `list_all` (redis_repository.py:172): `list(self._storage.values())`. -/
def list_all (s : Storage) : List ProcessInfo :=
  s.map (fun p => p.2)

/-- `get_stats` (redis_repository.py:176).  The returned dict has keys
`total`, `running`, `completed`, `failed` — and no `pending` key. -/
def get_stats (s : Storage) : List (String × Nat) :=
  let processes := list_all s
  [ ("total", processes.length), ("running", (processes.filter (fun p => p.status = "running")).length), ("completed", (processes.filter (fun p => p.status = "completed")).length), ("failed", (processes.filter (fun p => p.status = "failed")).length) ]

/-- `cleanup_completed` (redis_repository.py:186).  The source computes
`to_delete = [pid for pid, p in storage if p.status in ("completed","failed")]`
and then `del`s each id; the `older_than_hours` argument is accepted but
never consulted ("Simple implementation: remove all completed/failed").
Returns `len(to_delete)` and the resulting storage. -/
def cleanup_completed (s : Storage) (older_than_hours : Nat := 24) : Nat × Storage :=
  let _ := older_than_hours
  let to_delete :=
    (s.filter (fun p => p.2.status = "completed" ∨ p.2.status = "failed")).map (fun p => p.1)
  (to_delete.length, to_delete.foldl (fun acc pid => alErase pid acc) s)

end InMemoryProcessRepository

/-! ## `RedisProcessRepository` (redis_repository.py:198)

Redis state is modelled by its four data structures: the per-process
metadata hashes (`process:{id}`), the pickled result payloads
(`process:{id}:result`), the set of all ids (`process:all`) and the sorted
set of completed ids with their completion timestamp as score
(`process:completed`).  Key prefixes are constant decoration and are
elided; the separate key namespaces become separate fields.  `EXPIRE`
(retention TTL) is not modelled.  `datetime.fromisoformat(s).timestamp()`
is modelled by an abstract `parseTime : String → Int` argument, and "now"
(`datetime.now(UTC).timestamp()`) by an explicit `now : Int` argument of
`cleanup_completed`; hours are converted with the source's
`older_than_hours * 3600`. -/

namespace RedisProcessRepository

/-- The metadata hash written by `save` (redis_repository.py:357): all six
fields are stored as strings, with `None` encoded as `""` (`process.error
or ""` etc.). -/
structure RMeta where
  process_id : String
  status : String
  error : String
  query : String
  created_at : String
  completed_at : String
deriving DecidableEq

/-- The four Redis data structures used by the repository. -/
structure RedisState where
  meta : List (String × RMeta)
  results : List (String × DecisionState)
  allSet : List String
  completedZ : List (String × Int)
deriving DecidableEq

/-- A fresh (empty) Redis database. -/
def emptyState : RedisState := ⟨[], [], [], []⟩

/-- `SADD`: add a member to a set. -/
def saddList (s : List String) (x : String) : List String :=
  if x ∈ s then s else s ++ [x]

/-- `save` (redis_repository.py:327): one atomic pipeline writing the
metadata hash, the result payload (only when `process.result` is truthy),
the membership set, and — when the process is completed/failed and carries
a (truthy, i.e. non-empty) `completed_at` — the sorted set entry scored by
the parsed completion timestamp. -/
def encodeMeta (process : ProcessInfo) : RMeta :=
  { process_id := process.process_id, status := process.status, error := process.error.getD "", query := process.query, created_at := process.created_at.getD "", completed_at := process.completed_at.getD "" }

/-- The result-payload write of `save` (`SET process:{id}:result`,
redis_repository.py:376), performed only when `process.result` is truthy. -/
def resultEntry (process : ProcessInfo) : Option (String × DecisionState) :=
  process.result.map (fun st => (process.process_id, st))

/-- The sorted-set write of `save` (`ZADD processes:completed`,
redis_repository.py:384), performed only for a completed/failed process
with a truthy (non-empty) `completed_at`; the score is the parsed
completion timestamp. -/
def zEntry (parseTime : String → Int) (process : ProcessInfo) : Option (String × Int) :=
  if (process.status = "completed" ∨ process.status = "failed")
      ∧ process.completed_at.getD "" ≠ "" then
    some (process.process_id, parseTime (process.completed_at.getD ""))
  else
    none

def save (parseTime : String → Int) (rs : RedisState) (process : ProcessInfo) : RedisState :=
  let meta' := alInsert process.process_id (encodeMeta process) rs.meta
  let results' :=
    match resultEntry process with
    | some e => alInsert e.1 e.2 rs.results
    | none => rs.results
  let allSet' := saddList rs.allSet process.process_id
  let completedZ' :=
    match zEntry parseTime process with
    | some e => alInsert e.1 e.2 rs.completedZ
    | none => rs.completedZ
  { meta := meta', results := results', allSet := allSet', completedZ := completedZ' }

/-- Decode a `""`-encoded nullable string field back to `Option`
(`metadata.get("error") or None` in `get`). -/
def decodeOpt (s : String) : Option String :=
  if s = "" then none else some s

/-- `get` (redis_repository.py:402): read the metadata hash (absent hash →
`None`), read the result payload, and reconstruct the record, turning empty
strings back into `None` for `error`, `created_at` and `completed_at`. -/
def get (rs : RedisState) (process_id : String) : Option ProcessInfo :=
  match List.lookup process_id rs.meta with
  | none => none
  | some m =>
      some
        { process_id := m.process_id, query := m.query, status := m.status, result := List.lookup process_id rs.results, error := decodeOpt m.error, created_at := decodeOpt m.created_at, completed_at := decodeOpt m.completed_at }

/-- `exists` (redis_repository.py:457): `SISMEMBER process:all id`. -/
def existsId (rs : RedisState) (process_id : String) : Bool :=
  process_id ∈ rs.allSet

/-- `delete` (redis_repository.py:475): no-op returning `False` when the id
is not a member of `process:all`; otherwise remove the hash, the payload,
the set entry and the sorted-set entry. -/
def delete (rs : RedisState) (process_id : String) : Bool × RedisState :=
  if existsId rs process_id then
    ( true, { meta := alErase process_id rs.meta, results := alErase process_id rs.results, allSet := rs.allSet.filter (fun x => x ≠ process_id), completedZ := alErase process_id rs.completedZ } )
  else
    (false, rs)

/-- `list_all` (redis_repository.py:517): fetch every member of the id set,
keeping the records whose `get` succeeds. -/
def list_all (rs : RedisState) : List ProcessInfo :=
  rs.allSet.filterMap (fun pid => get rs pid)

/-- `get_stats` (redis_repository.py:553): counts over `list_all`, with
keys `total`, `pending`, `running`, `completed`, `failed`. -/
def get_stats (rs : RedisState) : List (String × Nat) :=
  let processes := list_all rs
  [ ("total", processes.length), ("pending", (processes.filter (fun p => p.status = "pending")).length), ("running", (processes.filter (fun p => p.status = "running")).length), ("completed", (processes.filter (fun p => p.status = "completed")).length), ("failed", (processes.filter (fun p => p.status = "failed")).length) ]

/-- `cleanup_completed` (redis_repository.py:590): `ZRANGEBYSCORE
process:completed -inf (now - hours*3600)` and then `delete` each id found,
counting every id of the range.  (ZRANGEBYSCORE enumerates by score; the
deletions of distinct ids commute, so the stored order used here yields the
same final state and count.) -/
def cleanup_completed (rs : RedisState) (older_than_hours : Nat) (now : Int) :
    Nat × RedisState :=
  let cutoff_time : Int := now - older_than_hours * 3600
  let old_processes := (rs.completedZ.filter (fun p => p.2 ≤ cutoff_time)).map (fun p => p.1)
  (old_processes.length, old_processes.foldl (fun acc pid => (delete acc pid).2) rs)

end RedisProcessRepository

/-! ## Workflow engine (`backend/app/core/graph/nodes.py`, `executor.py`)

The graph of `pydantic_graph` is a step relation on configurations: the
current `DecisionState` plus the node about to run (each node instance
carries its dataclass fields, e.g. the feedback `evaluation` of a retry).
The Reasoning Service (the pydantic-ai agents, including the evaluator
agents) is an `Oracle` giving, for each agent, the response to its n-th
invocation with a given prompt; a response is `.error msg` when the
provider raises.  Call counters per agent live in the configuration so that
oracle behaviours such as "reject twice, then approve" are expressible. -/

/-- The stage-side agents of `decision_agents.py` (free-text output), plus
the information-retrieval agent. -/
inductive StageAgent where
  | identify_trigger_agent
  | root_cause_analyzer_agent
  | scope_definition_agent
  | drafting_agent
  | establish_goals_agent
  | identify_information_needed_agent
  | retrieve_information_needed_agent
  | draft_update_agent
  | generation_of_alternatives_agent
deriving DecidableEq

/-- The evaluator agents of `evaluator_agents.py` (structured
`EvaluationOutput`).  `Evaluate_UpdateDraft` and `Evaluate_Result` both run
`draft_update_agent_evaluator` (nodes.py:646 and nodes.py:732). -/
inductive EvalAgent where
  | identify_trigger_agent_evaluator
  | root_cause_analyzer_agent_evaluator
  | scope_definition_agent_evaluator
  | drafting_agent_evaluator
  | establish_goals_agent_evaluator
  | identify_information_needed_agent_evaluator
  | draft_update_agent_evaluator
  | generation_of_alternatives_agent_evaluator
deriving DecidableEq

/-- The external Reasoning Service: the response of each agent to its n-th
call (0-based, per agent) with the prompt the engine built.  `userAsk`
models the interactive `Prompt.ask` of `GetDecision` (only consulted when
`decision_requested` is empty). -/
structure Oracle where
  stageResp : StageAgent → Nat → String → Except String String
  evalResp : EvalAgent → Nat → String → Except String EvaluationOutput
  resultResp : Nat → String → Except String ResultOutput
  userAsk : String

/-- The graph nodes (nodes.py), with their dataclass fields.  `End_` is the
terminal `End(True)` of `Evaluate_Result`. -/
inductive Node where
  | GetDecision
  | IdentifyTrigger (evaluation : Option String)
  | Evaluate_IdentifyTrigger (answer : String)
  | AnalyzeRootCause (evaluation : Option String)
  | Evaluate_AnalyzeRootCause (answer : String)
  | ScopeDefinition (evaluation : Option String)
  | Evaluate_ScopeDefinition (answer : String)
  | Drafting (evaluation : Option String)
  | Evaluate_Drafting (answer : String)
  | EstablishGoals (evaluation : Option String)
  | Evaluate_EstablishGoals (answer : String)
  | IdentifyInformationNeeded (evaluation : Option String) (complementary_info : Option Bool)
  | Evaluate_IdentifyInformationNeeded (answer : String)
  | UpdateDraft (evaluation : Option String)
  | Evaluate_UpdateDraft (answer : String)
  | GenerationOfAlternatives (evaluation : Option String)
  | Evaluate_GenerationOfAlternatives (answer : String)
  | Result (evaluation : Option String)
  | Evaluate_Result (answer : ResultOutput)
  | End_ (value : Bool)
deriving DecidableEq

/-- A running configuration: accumulated state, next node, and per-agent
call counters (how many times each agent has been invoked so far). -/
structure Config where
  state : DecisionState
  node : Node
  scnt : StageAgent → Nat
  ecnt : EvalAgent → Nat
  rescnt : Nat

/-- The retry suffix every stage node appends to its base prompt when it
carries evaluator feedback (nodes.py, repeated verbatim in each node). -/
def retrySuffix (evaluation : String) : String :=
  "\nYou gave an answer but that was not correct.\n" ++
  "Here the evaluation comments from your previous wrong answer: " ++ evaluation ++
  "\nPlease fix it and give the correct answer."

/-- Model of `pydantic_ai.format_as_xml` on a dict of strings: each
key/value pair is rendered as an element whose text is the value. -/
def formatAsXml : List (String × String) → String
  | [] => ""
  | p :: rest => "<" ++ p.1 ++ ">" ++ p.2 ++ "</" ++ p.1 ++ ">\n" ++ formatAsXml rest

/-- `IdentifyTrigger.run` prompt (nodes.py:91). -/
def identifyTriggerPrompt (st : DecisionState) (evaluation : Option String) : String :=
  let base := "Here the decision requested by user: " ++ st.decision_requested
  match evaluation with
  | some ev => base ++ retrySuffix ev
  | none => base

/-- `AnalyzeRootCause.run` prompt (nodes.py:117). -/
def analyzeRootCausePrompt (st : DecisionState) (evaluation : Option String) : String :=
  let base := "Here the decision requested by user: " ++ st.decision_requested ++
    "\nHere the identified trigger: " ++ st.trigger
  match evaluation with
  | some ev => base ++ retrySuffix ev
  | none => base

/-- `ScopeDefinition.run` prompt (nodes.py:146). -/
def scopeDefinitionPrompt (st : DecisionState) (evaluation : Option String) : String :=
  let base := "Here the decision requested by user: " ++ st.decision_requested ++
    "\nHere the identified trigger: " ++ st.trigger ++
    "\nHere the root cause analysis: " ++ st.root_cause
  match evaluation with
  | some ev => base ++ retrySuffix ev
  | none => base

/-- `Drafting.run` prompt (nodes.py:176). -/
def draftingPrompt (st : DecisionState) (evaluation : Option String) : String :=
  let base := "Here the decision requested by user: " ++ st.decision_requested ++
    "\nHere the identified trigger: " ++ st.trigger ++
    "\nHere the root cause analysis: " ++ st.root_cause ++
    "\nHere the scope definition: " ++ st.scope_definition
  match evaluation with
  | some ev => base ++ retrySuffix ev
  | none => base

/-- `EstablishGoals.run` prompt (nodes.py:208). -/
def establishGoalsPrompt (st : DecisionState) (evaluation : Option String) : String :=
  let base := "Here the decision requested by user: " ++ st.decision_drafted
  match evaluation with
  | some ev => base ++ retrySuffix ev
  | none => base

/-- `IdentifyInformationNeeded.run` prompt (nodes.py:235): feedback takes
precedence; otherwise a truthy `complementary_info` flag switches to the
augmented prompt carrying the gathered complementary information. -/
def identifyInformationNeededPrompt (st : DecisionState) (evaluation : Option String)
    (complementary_info : Option Bool) : String :=
  let base := "Here the decision requested by user: " ++ st.decision_drafted ++
    "\nHere the established goals for the decision: " ++ st.goals
  match evaluation with
  | some ev => base ++ retrySuffix ev
  | none =>
      if complementary_info = some true then
        base ++ "\nHere the complementary info about the decision: " ++ st.complementary_info
      else
        base

/-- `UpdateDraft.run` prompt (nodes.py:269): the complementary info is
appended to the base prompt whenever `complementary_info_num > 0`. -/
def updateDraftPrompt (st : DecisionState) (evaluation : Option String) : String :=
  let base0 := "Here the decision requested by user: " ++ st.decision_drafted
  let base :=
    if st.complementary_info_num > 0 then
      base0 ++ "\nHere the complementary info for the decision: " ++ st.complementary_info
    else
      base0
  match evaluation with
  | some ev => base ++ retrySuffix ev
  | none => base

/-- `GenerationOfAlternatives.run` prompt (nodes.py:298): on retry the
current alternatives are included before the feedback. -/
def generationOfAlternativesPrompt (st : DecisionState) (evaluation : Option String) : String :=
  let base := "Here the decision requested by user: " ++ st.decision_draft_updated
  match evaluation with
  | some ev =>
      base ++ "\nHere the current alternatives for this decision: " ++ st.alternatives ++
        retrySuffix ev
  | none => base

/-- `Result.run` prompt (nodes.py:325): on retry the four previously
rejected result fields are included before the feedback. -/
def resultPrompt (st : DecisionState) (evaluation : Option String) : String :=
  let base := "Here the decision requested by user: " ++ st.decision_draft_updated ++
    "\nHere the current alternatives for this decision: " ++ st.alternatives
  match evaluation with
  | some ev =>
      base ++ "\nHere the selected result for the decision: " ++ st.result ++
        "\nHere the comment on selected result for the decision: " ++ st.result_comment ++
        "\nHere the selected best alternative for the decision: " ++ st.best_alternative_result ++
        "\nHere the comment on selected best alternative for the decision: " ++
        st.best_alternative_result_comment ++ retrySuffix ev
  | none => base

/-- The key/value context each evaluator node passes to `format_as_xml` for
its validating Reasoning Service call (nodes.py:369..736).  Only the four
early evaluators include the stage's raw `answer`; `Evaluate_EstablishGoals`
(nodes.py:551), `Evaluate_IdentifyInformationNeeded` (nodes.py:594),
`Evaluate_UpdateDraft` (nodes.py:646), `Evaluate_GenerationOfAlternatives`
(nodes.py:689) and `Evaluate_Result` (nodes.py:732) pass only
`decision drafted`. -/
def evaluatorContext (st : DecisionState) : Node → List (String × String)
  | .Evaluate_IdentifyTrigger answer =>
      [ ("decision requested", st.decision_requested), ("identified trigger for the decision", answer) ]
  | .Evaluate_AnalyzeRootCause answer =>
      [ ("decision requested", st.decision_requested), ("identified trigger for the decision", st.trigger), ("root cause analysis", answer) ]
  | .Evaluate_ScopeDefinition answer =>
      [ ("decision requested", st.decision_requested), ("identified trigger for the decision", st.trigger), ("root cause analysis", st.root_cause), ("scope definition", answer) ]
  | .Evaluate_Drafting answer =>
      [ ("decision requested", st.decision_requested), ("identified trigger for the decision", st.trigger), ("root cause analysis", st.root_cause), ("scope definition", st.scope_definition), ("decision drafted", answer) ]
  | .Evaluate_EstablishGoals _ => [("decision requested", st.decision_drafted)]
  | .Evaluate_IdentifyInformationNeeded _ => [("decision requested", st.decision_drafted)]
  | .Evaluate_UpdateDraft _ => [("decision requested", st.decision_drafted)]
  | .Evaluate_GenerationOfAlternatives _ => [("decision requested", st.decision_drafted)]
  | .Evaluate_Result _ => [("decision requested", st.decision_drafted)]
  | _ => []

/-- The context of the information-retrieval call made by
`Evaluate_IdentifyInformationNeeded` on rejection (nodes.py:612). -/
def retrieveContext (st : DecisionState) (info_needed : String) : List (String × String) :=
  [("decision requested", st.decision_drafted), ("info needed", info_needed)]

/-- Bump one agent's call counter. -/
def bumpS (f : StageAgent → Nat) (a : StageAgent) : StageAgent → Nat :=
  fun x => if x = a then f x + 1 else f x

/-- Bump one evaluator agent's call counter. -/
def bumpE (f : EvalAgent → Nat) (a : EvalAgent) : EvalAgent → Nat :=
  fun x => if x = a then f x + 1 else f x

/-- One step of the decision graph: run the current node exactly as its
`run` method does (nodes.py), producing the next configuration, or the
provider error, which no node catches.  Each `await agent.run(prompt)`
becomes one oracle consultation (at the agent's current call number, which
is then bumped).  The terminal `End_` node steps to itself. -/
def step (o : Oracle) (c : Config) : Except String Config :=
  match c.node with
  | .GetDecision =>
      let st :=
        if c.state.decision_requested = "" then
          { c.state with decision_requested := o.userAsk }
        else c.state
      .ok { c with state := st, node := .IdentifyTrigger none }
  | .IdentifyTrigger ev =>
      match o.stageResp .identify_trigger_agent (c.scnt .identify_trigger_agent)
          (identifyTriggerPrompt c.state ev) with
      | .error e => .error e
      | .ok ans =>
          .ok { c with scnt := bumpS c.scnt .identify_trigger_agent, node := .Evaluate_IdentifyTrigger ans }
  | .Evaluate_IdentifyTrigger ans =>
      match o.evalResp .identify_trigger_agent_evaluator
          (c.ecnt .identify_trigger_agent_evaluator)
          (formatAsXml (evaluatorContext c.state (.Evaluate_IdentifyTrigger ans))) with
      | .error e => .error e
      | .ok r =>
          if r.correct then
            .ok { c with ecnt := bumpE c.ecnt .identify_trigger_agent_evaluator, state := { c.state with trigger := ans }, node := .AnalyzeRootCause none }
          else
            .ok { c with ecnt := bumpE c.ecnt .identify_trigger_agent_evaluator, node := .IdentifyTrigger (some r.comment) }
  | .AnalyzeRootCause ev =>
      match o.stageResp .root_cause_analyzer_agent (c.scnt .root_cause_analyzer_agent)
          (analyzeRootCausePrompt c.state ev) with
      | .error e => .error e
      | .ok ans =>
          .ok { c with scnt := bumpS c.scnt .root_cause_analyzer_agent, node := .Evaluate_AnalyzeRootCause ans }
  | .Evaluate_AnalyzeRootCause ans =>
      match o.evalResp .root_cause_analyzer_agent_evaluator
          (c.ecnt .root_cause_analyzer_agent_evaluator)
          (formatAsXml (evaluatorContext c.state (.Evaluate_AnalyzeRootCause ans))) with
      | .error e => .error e
      | .ok r =>
          if r.correct then
            .ok { c with ecnt := bumpE c.ecnt .root_cause_analyzer_agent_evaluator, state := { c.state with root_cause := ans }, node := .ScopeDefinition none }
          else
            .ok { c with ecnt := bumpE c.ecnt .root_cause_analyzer_agent_evaluator, node := .AnalyzeRootCause (some r.comment) }
  | .ScopeDefinition ev =>
      match o.stageResp .scope_definition_agent (c.scnt .scope_definition_agent)
          (scopeDefinitionPrompt c.state ev) with
      | .error e => .error e
      | .ok ans =>
          .ok { c with scnt := bumpS c.scnt .scope_definition_agent, node := .Evaluate_ScopeDefinition ans }
  | .Evaluate_ScopeDefinition ans =>
      match o.evalResp .scope_definition_agent_evaluator
          (c.ecnt .scope_definition_agent_evaluator)
          (formatAsXml (evaluatorContext c.state (.Evaluate_ScopeDefinition ans))) with
      | .error e => .error e
      | .ok r =>
          if r.correct then
            .ok { c with ecnt := bumpE c.ecnt .scope_definition_agent_evaluator, state := { c.state with scope_definition := ans }, node := .Drafting none }
          else
            .ok { c with ecnt := bumpE c.ecnt .scope_definition_agent_evaluator, node := .ScopeDefinition (some r.comment) }
  | .Drafting ev =>
      match o.stageResp .drafting_agent (c.scnt .drafting_agent)
          (draftingPrompt c.state ev) with
      | .error e => .error e
      | .ok ans =>
          .ok { c with scnt := bumpS c.scnt .drafting_agent, node := .Evaluate_Drafting ans }
  | .Evaluate_Drafting ans =>
      match o.evalResp .drafting_agent_evaluator (c.ecnt .drafting_agent_evaluator)
          (formatAsXml (evaluatorContext c.state (.Evaluate_Drafting ans))) with
      | .error e => .error e
      | .ok r =>
          if r.correct then
            .ok { c with ecnt := bumpE c.ecnt .drafting_agent_evaluator, state := { c.state with decision_drafted := ans }, node := .EstablishGoals none }
          else
            .ok { c with ecnt := bumpE c.ecnt .drafting_agent_evaluator, node := .Drafting (some r.comment) }
  | .EstablishGoals ev =>
      match o.stageResp .establish_goals_agent (c.scnt .establish_goals_agent)
          (establishGoalsPrompt c.state ev) with
      | .error e => .error e
      | .ok ans =>
          .ok { c with scnt := bumpS c.scnt .establish_goals_agent, node := .Evaluate_EstablishGoals ans }
  | .Evaluate_EstablishGoals ans =>
      match o.evalResp .establish_goals_agent_evaluator
          (c.ecnt .establish_goals_agent_evaluator)
          (formatAsXml (evaluatorContext c.state (.Evaluate_EstablishGoals ans))) with
      | .error e => .error e
      | .ok r =>
          if r.correct then
            .ok { c with ecnt := bumpE c.ecnt .establish_goals_agent_evaluator, state := { c.state with goals := ans }, node := .IdentifyInformationNeeded none none }
          else
            .ok { c with ecnt := bumpE c.ecnt .establish_goals_agent_evaluator, node := .EstablishGoals (some r.comment) }
  | .IdentifyInformationNeeded ev ci =>
      match o.stageResp .identify_information_needed_agent
          (c.scnt .identify_information_needed_agent)
          (identifyInformationNeededPrompt c.state ev ci) with
      | .error e => .error e
      | .ok ans =>
          .ok { c with scnt := bumpS c.scnt .identify_information_needed_agent, node := .Evaluate_IdentifyInformationNeeded ans }
  | .Evaluate_IdentifyInformationNeeded ans =>
      match o.evalResp .identify_information_needed_agent_evaluator
          (c.ecnt .identify_information_needed_agent_evaluator)
          (formatAsXml (evaluatorContext c.state (.Evaluate_IdentifyInformationNeeded ans))) with
      | .error e => .error e
      | .ok r =>
          if r.correct ∨ c.state.complementary_info_num ≥ 3 then
            .ok { c with ecnt := bumpE c.ecnt .identify_information_needed_agent_evaluator, node := .UpdateDraft none }
          else
            match o.stageResp .retrieve_information_needed_agent
                (c.scnt .retrieve_information_needed_agent)
                (formatAsXml (retrieveContext c.state ans)) with
            | .error e => .error e
            | .ok info =>
                .ok { c with
                      ecnt := bumpE c.ecnt .identify_information_needed_agent_evaluator, scnt := bumpS c.scnt .retrieve_information_needed_agent, state := { c.state with
                        complementary_info := c.state.complementary_info ++ "\n" ++ info, complementary_info_num := c.state.complementary_info_num + 1 }, node := .IdentifyInformationNeeded none (some true) }
  | .UpdateDraft ev =>
      match o.stageResp .draft_update_agent (c.scnt .draft_update_agent)
          (updateDraftPrompt c.state ev) with
      | .error e => .error e
      | .ok ans =>
          .ok { c with scnt := bumpS c.scnt .draft_update_agent, node := .Evaluate_UpdateDraft ans }
  | .Evaluate_UpdateDraft ans =>
      match o.evalResp .draft_update_agent_evaluator (c.ecnt .draft_update_agent_evaluator)
          (formatAsXml (evaluatorContext c.state (.Evaluate_UpdateDraft ans))) with
      | .error e => .error e
      | .ok r =>
          if r.correct then
            .ok { c with ecnt := bumpE c.ecnt .draft_update_agent_evaluator, state := { c.state with decision_draft_updated := ans }, node := .GenerationOfAlternatives none }
          else
            .ok { c with ecnt := bumpE c.ecnt .draft_update_agent_evaluator, node := .UpdateDraft (some r.comment) }
  | .GenerationOfAlternatives ev =>
      match o.stageResp .generation_of_alternatives_agent
          (c.scnt .generation_of_alternatives_agent)
          (generationOfAlternativesPrompt c.state ev) with
      | .error e => .error e
      | .ok ans =>
          .ok { c with scnt := bumpS c.scnt .generation_of_alternatives_agent, node := .Evaluate_GenerationOfAlternatives ans }
  | .Evaluate_GenerationOfAlternatives ans =>
      match o.evalResp .generation_of_alternatives_agent_evaluator
          (c.ecnt .generation_of_alternatives_agent_evaluator)
          (formatAsXml (evaluatorContext c.state (.Evaluate_GenerationOfAlternatives ans))) with
      | .error e => .error e
      | .ok r =>
          if r.correct then
            .ok { c with ecnt := bumpE c.ecnt .generation_of_alternatives_agent_evaluator, state := { c.state with alternatives := ans }, node := .Result none }
          else
            .ok { c with ecnt := bumpE c.ecnt .generation_of_alternatives_agent_evaluator, node := .GenerationOfAlternatives (some r.comment) }
  | .Result ev =>
      match o.resultResp c.rescnt (resultPrompt c.state ev) with
      | .error e => .error e
      | .ok ans =>
          .ok { c with rescnt := c.rescnt + 1, node := .Evaluate_Result ans }
  | .Evaluate_Result ans =>
      match o.evalResp .draft_update_agent_evaluator (c.ecnt .draft_update_agent_evaluator)
          (formatAsXml (evaluatorContext c.state (.Evaluate_Result ans))) with
      | .error e => .error e
      | .ok r =>
          if r.correct then
            .ok { c with ecnt := bumpE c.ecnt .draft_update_agent_evaluator, state := { c.state with
                    result := ans.result, result_comment := ans.result_comment, best_alternative_result := ans.best_alternative_result, best_alternative_result_comment := ans.best_alternative_result_comment }, node := .End_ true }
          else
            .ok { c with ecnt := bumpE c.ecnt .draft_update_agent_evaluator, node := .Result (some r.comment) }
  | .End_ _ => .ok c

/-- Iterate `step` up to `fuel` times, stopping at the terminal node.  A
provider error at any step aborts the whole run with that error. -/
def steps (o : Oracle) : Nat → Config → Except String Config
  | 0, c => .ok c
  | n + 1, c =>
      match c.node with
      | .End_ _ => .ok c
      | _ => do steps o n (← step o c)

/-- Like `steps` but also collects the node of every configuration that got
to run (the execution history recorded by the graph). -/
def traceRun (o : Oracle) : Nat → Config → Except String (List Node × Config)
  | 0, c => .ok ([], c)
  | n + 1, c =>
      match c.node with
      | .End_ _ => .ok ([], c)
      | _ => do
          let c1 ← step o c
          let (ns, cf) ← traceRun o n c1
          .ok (c.node :: ns, cf)

/-- The initial configuration of one run: `DecisionService.run_decision`
builds `DecisionState(decision_requested=query)` and starts the graph at
`GetDecision` (decision_service.py:48). -/
def initConfig (query : String) : Config :=
  { state := { decision_requested := query }, node := .GetDecision, scnt := fun _ => 0, ecnt := fun _ => 0, rescnt := 0 }

/-- `DecisionService.run_decision` (decision_service.py:30) with explicit
fuel: the final state when the terminal signal is reached within `fuel`
steps; a provider error propagates uncaught.  (`OUT OF FUEL` is an artifact
of bounding the unbounded source loop; no theorem below relies on it.) -/
def run_decision (o : Oracle) (fuel : Nat) (query : String) : Except String DecisionState :=
  match steps o fuel (initConfig query) with
  | .error e => .error e
  | .ok c => match c.node with
    | .End_ _ => .ok c.state
    | _ => .error "OUT OF FUEL"

/-! ## `ProcessManager` (`backend/app/services/process_manager.py`)

`ProcessManager` is repository-polymorphic (dependency injection): the
injected repository is modelled as a `RepoImpl`, instantiated below with
the in-memory map and with the Redis adapter.  Repository methods are
async but a manager's operations on one record are strictly sequential, so
they are modelled as pure state transformers. -/

/-- The slice of the `IProcessRepository` interface that `create_process` /
`execute_process` / `get_process` use. -/
structure RepoImpl (σ : Type) where
  save : σ → ProcessInfo → σ
  get : σ → String → Option ProcessInfo

/-- The in-memory repository as a `RepoImpl`. -/
def memRepo : RepoImpl InMemoryProcessRepository.Storage :=
  { save := InMemoryProcessRepository.save, get := InMemoryProcessRepository.get }

/-- The Redis repository as a `RepoImpl` (for a fixed timestamp parser). -/
def redisRepo (parseTime : String → Int) : RepoImpl RedisProcessRepository.RedisState :=
  { save := RedisProcessRepository.save parseTime, get := RedisProcessRepository.get }

namespace ProcessManager

/-- `create_process` (process_manager.py:142): write a fresh `pending`
record.  The generated unique id and the `datetime.now(UTC).isoformat()`
timestamp are explicit arguments supplied by the environment. -/
def create_process {σ : Type} (repo : RepoImpl σ) (s : σ)
    (process_id : String) (decision_query : String) (now_iso : String) : σ :=
  repo.save s
    { process_id := process_id, query := decision_query, status := "pending", result := none, error := none, created_at := some now_iso, completed_at := none }

/-- `execute_process` (process_manager.py:192).  `decision_query` is the
optional explicit query; when omitted the stored record supplies it (a
missing record makes the call a silent no-op).  `outcome` is the result of
`self._decision_service.run_decision(decision_query)`: the final
`DecisionState` on success, or the raised error message, which the method
catches and records as a terminal `failed` write.  `now_iso` stamps
`completed_at`. -/
def execute_process {σ : Type} (repo : RepoImpl σ) (s : σ)
    (process_id : String) (decision_query : Option String)
    (outcome : Except String DecisionState) (now_iso : String) : σ :=
  match decision_query, repo.get s process_id with
  | none, none => s
  | _, _ =>
      match outcome with
      | .ok state =>
          match repo.get s process_id with
          | none => s
          | some process_info =>
              repo.save s
                { process_info with
                  status := "completed", result := some state, completed_at := some now_iso }
      | .error e =>
          match repo.get s process_id with
          | none => s
          | some process_info =>
              repo.save s
                { process_info with
                  status := "failed", error := some e, completed_at := some now_iso }

/-- `get_process` (process_manager.py:260): passthrough to the repository. -/
def get_process {σ : Type} (repo : RepoImpl σ) (s : σ) (process_id : String) :
    Option ProcessInfo :=
  repo.get s process_id

/-- One manager operation, with all environment-supplied data (generated
id, service outcome, clock readings) as constructor arguments. -/
inductive MOp where
  | create (process_id : String) (decision_query : String) (now_iso : String)
  | execute (process_id : String) (decision_query : Option String)
      (outcome : Except String DecisionState) (now_iso : String)

/-- Apply one manager operation to the repository state. -/
def applyOp {σ : Type} (repo : RepoImpl σ) (s : σ) : MOp → σ
  | .create pid q t => create_process repo s pid q t
  | .execute pid q outcome t => execute_process repo s pid q outcome t

/-- Apply a sequence of manager operations. -/
def applyOps {σ : Type} (repo : RepoImpl σ) (s : σ) (ops : List MOp) : σ :=
  ops.foldl (applyOp repo) s

end ProcessManager

/-! ## `DecisionService.validate_decision_query` and the async start route -/

/-- Python's `str.strip()`: drop leading and trailing whitespace. -/
def pyStrip (s : String) : String :=
  ⟨((s.data.dropWhile Char.isWhitespace).reverse.dropWhile Char.isWhitespace).reverse⟩

namespace DecisionService

/-- `validate_decision_query` (decision_service.py:167): raises `ValueError`
(modelled as `.error` with the raised message) for an empty/whitespace-only
query (`not decision_query or not decision_query.strip()`), a stripped
length below 10, or a raw length above 1000; returns `True` otherwise. -/
def validate_decision_query (decision_query : String) : Except String Bool :=
  if decision_query = "" ∨ pyStrip decision_query = "" then
    .error "Decision query cannot be empty"
  else if (pyStrip decision_query).length < 10 then
    .error "Decision query must be at least 10 characters"
  else if decision_query.length > 1000 then
    .error "Decision query must be less than 1000 characters"
  else
    .ok true

end DecisionService

/-- `start_decision_async` (decisions.py:103): validate first; a
`ValueError` becomes an HTTP 400 response and nothing else happens, in
particular `create_process` is never reached.  On success the pending
record is created and the background execution is scheduled (not run); the
route answers with the new process id.  The repository state after the call
is returned alongside the response. -/
def start_decision_async {σ : Type} (repo : RepoImpl σ) (s : σ)
    (decision_query : String) (process_id : String) (now_iso : String) :
    Except (Nat × String) String × σ :=
  match DecisionService.validate_decision_query decision_query with
  | .error e => (.error (400, e), s)
  | .ok _ =>
      (.ok process_id, ProcessManager.create_process repo s process_id decision_query now_iso)

/-! ## Helper lemmas about the dict model -/

theorem lookup_alInsert_self {α : Type} (k : String) (v : α) (l : List (String × α)) :
    List.lookup k (alInsert k v l) = some v := by
  induction l with
  | nil => simp [alInsert, List.lookup]
  | cons p t ih =>
      obtain ⟨k2, v2⟩ := p
      by_cases h : k2 = k
      · simp [alInsert, h, List.lookup]
      · simp only [alInsert, if_neg h, List.lookup]
        have hbeq : (k == k2) = false := by
          simp [beq_eq_false_iff_ne]
          exact fun hk => h hk.symm
        simp [hbeq, ih]

theorem lookup_alInsert_other {α : Type} (k k' : String) (v : α) (l : List (String × α))
    (h : k' ≠ k) : List.lookup k' (alInsert k v l) = List.lookup k' l := by
  induction l with
  | nil => simp [alInsert, List.lookup, beq_eq_false_iff_ne.mpr h]
  | cons p t ih =>
      obtain ⟨k2, v2⟩ := p
      by_cases h2 : k2 = k
      · subst h2
        simp [alInsert, List.lookup, beq_eq_false_iff_ne.mpr h]
      · simp only [alInsert, if_neg h2, List.lookup]
        cases hbeq : k' == k2 <;> simp [ih]

theorem lookup_alErase_self {α : Type} (k : String) (l : List (String × α)) :
    List.lookup k (alErase k l) = none := by
  induction l with
  | nil => simp [alErase]
  | cons p t ih =>
      obtain ⟨k2, v2⟩ := p
      by_cases h2 : k2 = k
      · simpa [alErase, List.filter_cons, h2] using ih
      · have hbeq : (k == k2) = false := beq_eq_false_iff_ne.mpr (fun hk => h2 hk.symm)
        simpa [alErase, List.filter_cons, h2, List.lookup, hbeq] using ih

theorem lookup_alErase_other {α : Type} (k k' : String) (l : List (String × α))
    (h : k' ≠ k) : List.lookup k' (alErase k l) = List.lookup k' l := by
  induction l with
  | nil => simp [alErase]
  | cons p t ih =>
      obtain ⟨k2, v2⟩ := p
      by_cases h2 : k2 = k
      · subst h2
        have hbeq : (k' == k2) = false := beq_eq_false_iff_ne.mpr h
        simpa [alErase, List.filter_cons, List.lookup, hbeq] using ih
      · simp only [alErase, ne_eq, decide_not] at ih
        cases hbeq : k' == k2 <;>
          simp [alErase, List.filter_cons, h2, List.lookup, hbeq, ih]

/-- Substring containment: `pat` occurs contiguously inside `s`. -/
def strContains (s pat : String) : Prop :=
  ∃ l r, l ++ pat.data ++ r = s.data

instance strContainsDecidable (s pat : String) : Decidable (strContains s pat) :=
  List.decidableInfix pat.data s.data

theorem strContains_append (a b c : String) : strContains (a ++ b ++ c) b :=
  ⟨a.data, c.data, by simp⟩

/-! ## C10: query validation and the async start path -/

/-- The condition under which `validate_decision_query` raises, as stated
by the claim: empty or whitespace-only, or stripped length below 10, or
raw length above 1000. -/
def invalidQuery (q : String) : Prop :=
  pyStrip q = "" ∨ (pyStrip q).length < 10 ∨ q.length > 1000

instance (q : String) : Decidable (invalidQuery q) := by
  unfold invalidQuery
  infer_instance

theorem pyStrip_empty : pyStrip "" = "" := rfl

/-- `validate_decision_query` raises on every invalid query. -/
theorem validate_raises_of_invalid (q : String) (h : invalidQuery q) :
    ∃ e, DecisionService.validate_decision_query q = .error e := by
  unfold DecisionService.validate_decision_query
  by_cases h0 : q = "" ∨ pyStrip q = ""
  · exact ⟨_, by rw [if_pos h0]⟩
  · rcases h with h | h | h
    · exact absurd (Or.inr h) h0
    · exact ⟨_, by rw [if_neg h0, if_pos h]⟩
    · by_cases h10 : (pyStrip q).length < 10
      · exact ⟨_, by rw [if_neg h0, if_pos h10]⟩
      · exact ⟨_, by rw [if_neg h0, if_neg h10, if_pos h]⟩

/-- C10.  `validate_decision_query` raises exactly on the claimed
condition and returns `True` otherwise; and in the async start route the
validation runs before `create_process`, so an invalid query leaves the
repository untouched (no `ProcessRecord` is ever created) and surfaces an
HTTP 400 instead. -/
theorem c10_validate_decision_query_exact (q : String) :
    ((∃ e, DecisionService.validate_decision_query q = .error e) ↔ invalidQuery q)
    ∧ (¬ invalidQuery q → DecisionService.validate_decision_query q = .ok true)
    ∧ (∀ {σ : Type} (repo : RepoImpl σ) (s : σ) (pid t : String), invalidQuery q →
        ∃ e, start_decision_async repo s q pid t = (.error (400, e), s)) := by
  have hok : ¬ invalidQuery q → DecisionService.validate_decision_query q = .ok true := by
    intro h
    simp only [invalidQuery, not_or, not_lt] at h
    obtain ⟨h1, h2, h3⟩ := h
    unfold DecisionService.validate_decision_query
    rw [if_neg ?hne, if_neg (not_lt.mpr h2), if_neg (not_lt.mpr h3)]
    case hne =>
      rintro (rfl | hq)
      · exact h1 pyStrip_empty
      · exact h1 hq
  refine ⟨⟨?_, validate_raises_of_invalid q⟩, hok, ?_⟩
  · rintro ⟨e, he⟩
    by_contra hinv
    rw [hok hinv] at he
    exact absurd he (by simp)
  · intro σ repo s pid t h
    obtain ⟨e, he⟩ := validate_raises_of_invalid q h
    exact ⟨e, by unfold start_decision_async; rw [he]⟩

/-! ## C1: `complementary_info_num` is monotone; the stage-7 loop is bounded -/

/-- No single engine step decreases `complementary_info_num`: the only node
that touches it is `Evaluate_IdentifyInformationNeeded`, which increments
it (nodes.py:619). -/
theorem step_num_mono (o : Oracle) (c c' : Config) (h : step o c = .ok c') :
    c.state.complementary_info_num ≤ c'.state.complementary_info_num := by
  unfold step at h
  split at h <;>
    (repeat' split at h) <;>
    first
      | (injection h; done)
      | (injection h with h2; subst h2; (try split) <;> simp <;> omega)

/-- No engine run, of any length, decreases `complementary_info_num`. -/
theorem steps_num_mono (o : Oracle) (n : Nat) (c c' : Config)
    (h : steps o n c = .ok c') :
    c.state.complementary_info_num ≤ c'.state.complementary_info_num := by
  induction n generalizing c with
  | zero =>
      simp only [steps] at h
      cases h
      exact Nat.le_refl _
  | succ n ih =>
      unfold steps at h
      split at h
      · cases h
        exact Nat.le_refl _
      · rename_i hne
        cases hs : step o c with
        | error e => rw [hs] at h; exact absurd h (by simp [bind, Except.bind])
        | ok c1 =>
            rw [hs] at h
            simp only [bind, Except.bind] at h
            exact Nat.le_trans (step_num_mono o c c1 hs) (ih c1 h)

/-- A run that has reached the terminal node stays there. -/
theorem steps_end (o : Oracle) (n : Nat) (c : Config) (b : Bool)
    (h : c.node = .End_ b) : steps o n c = .ok c := by
  cases n with
  | zero => rfl
  | succ n => unfold steps; rw [h]

/-- Runs compose: `m + n` steps are `m` steps then `n` steps. -/
theorem steps_add (o : Oracle) (m n : Nat) (c : Config) :
    steps o (m + n) c = (steps o m c).bind (steps o n) := by
  induction m generalizing c with
  | zero => simp [steps, Except.bind]
  | succ m ih =>
      have harith : m + 1 + n = (m + n) + 1 := by omega
      rw [harith]
      unfold steps
      cases hn : c.node with
      | End_ b =>
          simp only [Except.bind]
          exact (steps_end o n c b hn).symm
      | _ =>
          simp only [Except.bind]
          cases hs : step o c with
          | error e => simp [bind, Except.bind]
          | ok c1 => simp [bind, Except.bind, ih]

/-- One rejected round of the stage-7 loop: from `IdentifyInformationNeeded`
with fewer than 3 augmentations, two steps (stage call, then evaluator
rejection with information retrieval) re-enter the stage with the
"augmented" flag, one more augmentation and one more retrieval call. -/
theorem iin_round (o : Oracle) (c : Config) (ev : Option String) (ci : Option Bool)
    (f g cm : Nat → String → String)
    (hstage : ∀ n p, o.stageResp .identify_information_needed_agent n p = .ok (f n p))
    (hretr : ∀ n p, o.stageResp .retrieve_information_needed_agent n p = .ok (g n p))
    (heval : ∀ n p, o.evalResp .identify_information_needed_agent_evaluator n p
      = .ok ⟨false, cm n p⟩)
    (hnode : c.node = .IdentifyInformationNeeded ev ci)
    (hlt : c.state.complementary_info_num < 3) :
    ∃ c', steps o 2 c = .ok c'
      ∧ c'.node = .IdentifyInformationNeeded none (some true)
      ∧ c'.state.complementary_info_num = c.state.complementary_info_num + 1
      ∧ c'.scnt .retrieve_information_needed_agent
          = c.scnt .retrieve_information_needed_agent + 1 := by
  have hn3 : ¬ 3 ≤ c.state.complementary_info_num := by omega
  simp only [steps, step, hnode, bind, Except.bind, hstage, heval, hretr, hn3, or_false,
    Bool.false_eq_true, if_false, eq_self_iff_true]
  exact ⟨_, rfl, rfl, rfl, by simp [bumpS]⟩

/-- The exit of the stage-7 loop: once `complementary_info_num ≥ 3`, the
evaluator forces the advance and two steps lead to `UpdateDraft`, with no
further augmentation. -/
theorem iin_exit (o : Oracle) (c : Config) (ev : Option String) (ci : Option Bool)
    (f cm : Nat → String → String)
    (hstage : ∀ n p, o.stageResp .identify_information_needed_agent n p = .ok (f n p))
    (heval : ∀ n p, o.evalResp .identify_information_needed_agent_evaluator n p
      = .ok ⟨false, cm n p⟩)
    (hnode : c.node = .IdentifyInformationNeeded ev ci)
    (hge : 3 ≤ c.state.complementary_info_num) :
    ∃ c', steps o 2 c = .ok c'
      ∧ c'.node = .UpdateDraft none
      ∧ c'.state.complementary_info_num = c.state.complementary_info_num
      ∧ c'.scnt .retrieve_information_needed_agent
          = c.scnt .retrieve_information_needed_agent := by
  simp only [steps, step, hnode, bind, Except.bind, hstage, heval, hge, or_true, if_true]
  exact ⟨_, rfl, rfl, rfl, by simp [bumpS]⟩

/-- C1.  (a) In every workflow run `complementary_info_num` never
decreases; (b) under an evaluator that permanently rejects stage 7 (with
the stage agent and the information-retrieval agent answering normally),
the stage-7 loop terminates after exactly 3 augmentation attempts:
starting the stage with `complementary_info_num = 0`, eight steps later the
engine is at `UpdateDraft` with `complementary_info_num = 3` and exactly 3
information-retrieval calls made — the forced advance of
`Evaluate_IdentifyInformationNeeded` (`correct or complementary_info_num
>= 3`, nodes.py:600). -/
theorem c1_complementary_info_monotone_and_stage7_bounded :
    (∀ (o : Oracle) (n : Nat) (c c' : Config), steps o n c = .ok c' →
      c.state.complementary_info_num ≤ c'.state.complementary_info_num)
    ∧ (∀ (o : Oracle) (c : Config) (ev : Option String) (ci : Option Bool)
        (f g cm : Nat → String → String),
        (∀ n p, o.stageResp .identify_information_needed_agent n p = .ok (f n p)) →
        (∀ n p, o.stageResp .retrieve_information_needed_agent n p = .ok (g n p)) →
        (∀ n p, o.evalResp .identify_information_needed_agent_evaluator n p
          = .ok ⟨false, cm n p⟩) →
        c.node = .IdentifyInformationNeeded ev ci →
        c.state.complementary_info_num = 0 →
        ∃ c', steps o 8 c = .ok c'
          ∧ c'.node = .UpdateDraft none
          ∧ c'.state.complementary_info_num = 3
          ∧ c'.scnt .retrieve_information_needed_agent
              = c.scnt .retrieve_information_needed_agent + 3) := by
  refine ⟨steps_num_mono, ?_⟩
  intro o c ev ci f g cm hstage hretr heval hnode hzero
  obtain ⟨c1, h1, hn1, hm1, hr1⟩ :=
    iin_round o c ev ci f g cm hstage hretr heval hnode (by omega)
  obtain ⟨c2, h2, hn2, hm2, hr2⟩ :=
    iin_round o c1 none (some true) f g cm hstage hretr heval hn1 (by omega)
  obtain ⟨c3, h3, hn3, hm3, hr3⟩ :=
    iin_round o c2 none (some true) f g cm hstage hretr heval hn2 (by omega)
  obtain ⟨c4, h4, hn4, hm4, hr4⟩ :=
    iin_exit o c3 none (some true) f cm hstage heval hn3 (by omega)
  refine ⟨c4, ?_, hn4, by omega, by omega⟩
  have e8 : (8 : Nat) = 2 + (2 + (2 + 2)) := rfl
  rw [e8, steps_add, h1]
  simp only [Except.bind]
  rw [steps_add, h2]
  simp only [Except.bind]
  rw [steps_add, h3]
  simp only [Except.bind]
  exact h4

/-- Witness for C1(b): a concrete permanently-rejecting oracle starting at
`IdentifyInformationNeeded` with a fresh state. -/
theorem c1_witness :
    ∃ c', steps
        ⟨fun _ _ _ => .ok "an answer", fun _ _ _ => .ok ⟨false, "reject: need more"⟩,
         fun _ _ => .ok ⟨"r", "b", "rc", "bc"⟩, "u"⟩ 8
        { state := {}, node := .IdentifyInformationNeeded none none
        , scnt := fun _ => 0, ecnt := fun _ => 0, rescnt := 0 } = .ok c'
      ∧ c'.node = .UpdateDraft none
      ∧ c'.state.complementary_info_num = 3
      ∧ c'.scnt .retrieve_information_needed_agent
          = (fun _ : StageAgent => 0) .retrieve_information_needed_agent + 3 :=
  c1_complementary_info_monotone_and_stage7_bounded.2 _ _ none none
    (fun _ _ => "an answer") (fun _ _ => "an answer") (fun _ _ => "reject: need more")
    (fun _ _ => rfl) (fun _ _ => rfl) (fun _ _ => rfl) rfl rfl

/-! ## C8: stage-3 evaluator rejects twice, then approves -/

/-- The C8 scenario oracle: the stage-3 evaluator
(`root_cause_analyzer_agent_evaluator`) rejects its first two calls with
comments `"cmtONE"`, `"cmtTWO"` and approves from the third on; every other
evaluator approves on first try; the root-cause agent answers `"ansONE"`,
`"ansTWO"`, `"ansTHREE"` on its successive calls. -/
def c8Oracle : Oracle :=
  { stageResp := fun a n _ =>
      match a with
      | .root_cause_analyzer_agent =>
          if n = 0 then .ok "ansONE" else if n = 1 then .ok "ansTWO" else .ok "ansTHREE"
      | _ => .ok "stage answer"
  , evalResp := fun a n _ =>
      match a with
      | .root_cause_analyzer_agent_evaluator =>
          if n = 0 then .ok ⟨false, "cmtONE"⟩
          else if n = 1 then .ok ⟨false, "cmtTWO"⟩
          else .ok ⟨true, "approved fine"⟩
      | _ => .ok ⟨true, "approved fine"⟩
  , resultResp := fun _ _ => .ok ⟨"res", "alt", "resc", "altc"⟩
  , userAsk := "unused" }

/-- C8.  Under `c8Oracle` the engine runs to the terminal signal having
invoked the AnalyzeRootCause stage (and its agent) exactly 3 times and the
ScopeDefinition stage exactly once; the final `root_cause` is the third
(approved) answer; and each rejection re-entered `AnalyzeRootCause`
carrying the evaluator's feedback comment (`"cmtONE"`, then `"cmtTWO"`). -/
theorem c8_reject_twice_then_approve :
    ((traceRun c8Oracle 30 (initConfig "Should we do the thing?")).map (fun r =>
      ( r.2.node
      , r.2.scnt .root_cause_analyzer_agent
      , r.2.scnt .scope_definition_agent
      , r.2.state.root_cause
      , decide (Node.AnalyzeRootCause (some "cmtONE") ∈ r.1)
      , decide (Node.AnalyzeRootCause (some "cmtTWO") ∈ r.1)
      , r.1.countP (fun n => match n with | Node.AnalyzeRootCause _ => true | _ => false)
      , r.1.countP (fun n => match n with | Node.ScopeDefinition _ => true | _ => false))))
    = .ok (Node.End_ true, 3, 1, "ansTHREE", true, true, 3, 1) := by
  rfl

/-! ## C7: Reasoning Service errors propagate and become a `failed` record -/

/-- A provider error at the current node aborts the whole remaining run
with that very error: the engine catches nothing and performs no retry. -/
theorem steps_error_propagates (o : Oracle) (c : Config) (e : String) (n : Nat)
    (h : step o c = .error e) : steps o (n + 1) c = .error e := by
  unfold steps
  split
  · rename_i b hb
    have hok : step o c = .ok c := by unfold step; rw [hb]
    rw [hok] at h
    exact absurd h (by simp)
  · rw [h]
    rfl

/-- With stages 2–4 succeeding and approved, a Reasoning Service error
raised by the drafting agent (stage 5) aborts the run after 8 steps,
whatever the remaining fuel. -/
theorem drafting_error_run (o : Oracle) (q e : String)
    (f1 f2 f3 c1 c2 c3 : Nat → String → String)
    (hq : ¬ q = "")
    (h1 : ∀ n p, o.stageResp .identify_trigger_agent n p = .ok (f1 n p))
    (h1e : ∀ n p, o.evalResp .identify_trigger_agent_evaluator n p = .ok ⟨true, c1 n p⟩)
    (h2 : ∀ n p, o.stageResp .root_cause_analyzer_agent n p = .ok (f2 n p))
    (h2e : ∀ n p, o.evalResp .root_cause_analyzer_agent_evaluator n p = .ok ⟨true, c2 n p⟩)
    (h3 : ∀ n p, o.stageResp .scope_definition_agent n p = .ok (f3 n p))
    (h3e : ∀ n p, o.evalResp .scope_definition_agent_evaluator n p = .ok ⟨true, c3 n p⟩)
    (hd : ∀ n p, o.stageResp .drafting_agent n p = .error e) :
    steps o 8 (initConfig q) = .error e := by
  simp [steps, step, initConfig, bind, Except.bind, h1, h1e, h2, h2e, h3, h3e, hd, hq]

/-- C7.  (a) Any Reasoning Service error at any stage or evaluator call
propagates out of the engine uncaught, unchanged and without retry.
(b) Concretely for stage 5: when the drafting agent raises `e` (earlier
stages succeeding and approved), `run_decision` surfaces `.error e`, and
`execute_process` catches it and writes the terminal record: the record
observed afterwards has status `failed`, error equal to the raised message,
result still `null` and `completed_at` stamped. -/
theorem c7_reasoning_error_failed_record :
    (∀ (o : Oracle) (c : Config) (e : String) (n : Nat),
        step o c = .error e → steps o (n + 1) c = .error e)
    ∧ (∀ (o : Oracle) (q e : String) (f1 f2 f3 c1 c2 c3 : Nat → String → String)
        (n : Nat) (s : InMemoryProcessRepository.Storage) (pid t : String)
        (pi : ProcessInfo),
        ¬ q = "" →
        (∀ m p, o.stageResp .identify_trigger_agent m p = .ok (f1 m p)) →
        (∀ m p, o.evalResp .identify_trigger_agent_evaluator m p = .ok ⟨true, c1 m p⟩) →
        (∀ m p, o.stageResp .root_cause_analyzer_agent m p = .ok (f2 m p)) →
        (∀ m p, o.evalResp .root_cause_analyzer_agent_evaluator m p = .ok ⟨true, c2 m p⟩) →
        (∀ m p, o.stageResp .scope_definition_agent m p = .ok (f3 m p)) →
        (∀ m p, o.evalResp .scope_definition_agent_evaluator m p = .ok ⟨true, c3 m p⟩) →
        (∀ m p, o.stageResp .drafting_agent m p = .error e) →
        memRepo.get s pid = some pi →
        pi.process_id = pid →
        run_decision o (8 + n) q = .error e
        ∧ ProcessManager.get_process memRepo
            (ProcessManager.execute_process memRepo s pid (some q)
              (run_decision o (8 + n) q) t) pid
          = some { pi with status := "failed", error := some e, completed_at := some t }) := by
  constructor
  · exact steps_error_propagates
  · intro o q e f1 f2 f3 c1 c2 c3 n s pid t pi hq h1 h1e h2 h2e h3 h3e hd hget hpid
    have hrun : run_decision o (8 + n) q = .error e := by
      unfold run_decision
      rw [steps_add, drafting_error_run o q e f1 f2 f3 c1 c2 c3 hq h1 h1e h2 h2e h3 h3e hd]
      rfl
    refine ⟨hrun, ?_⟩
    rw [hrun]
    unfold ProcessManager.execute_process ProcessManager.get_process
    simp only [hget]
    show memRepo.get (memRepo.save s _) pid = _
    show InMemoryProcessRepository.get (InMemoryProcessRepository.save s _) pid = _
    unfold InMemoryProcessRepository.get InMemoryProcessRepository.save
    have : ({ pi with status := "failed", error := some e, completed_at := some t}
        : ProcessInfo).process_id = pid := hpid
    rw [← this]
    exact lookup_alInsert_self _ _ s

/-- Witness for C7(b): a concrete oracle whose drafting agent raises
`"boom"`, executed over an in-memory store holding one pending record. -/
theorem c7_witness :
    run_decision
        ⟨fun a n _ =>
            match a with
            | .drafting_agent => .error "boom"
            | _ => .ok "fine answer"
        , fun _ _ _ => .ok ⟨true, "approved fine"⟩
        , fun _ _ => .ok ⟨"r", "b", "rc", "bc"⟩, "u"⟩ (8 + 0) "Should I migrate?"
      = .error "boom"
    ∧ ProcessManager.get_process memRepo
        (ProcessManager.execute_process memRepo
          [("p1", { process_id := "p1", query := "Should I migrate?", status := "pending"
                  , result := none, error := none, created_at := some "T0"
                  , completed_at := none })]
          "p1" (some "Should I migrate?")
          (run_decision
            ⟨fun a n _ =>
                match a with
                | .drafting_agent => .error "boom"
                | _ => .ok "fine answer"
            , fun _ _ _ => .ok ⟨true, "approved fine"⟩
            , fun _ _ => .ok ⟨"r", "b", "rc", "bc"⟩, "u"⟩ (8 + 0) "Should I migrate?") "T1")
        "p1"
      = some { process_id := "p1", query := "Should I migrate?", status := "failed"
             , result := none, error := some "boom", created_at := some "T0"
             , completed_at := some "T1" } :=
  c7_reasoning_error_failed_record.2 _ "Should I migrate?" "boom"
    (fun _ _ => "fine answer") (fun _ _ => "fine answer") (fun _ _ => "fine answer")
    (fun _ _ => "approved fine") (fun _ _ => "approved fine") (fun _ _ => "approved fine")
    0
    [("p1", { process_id := "p1", query := "Should I migrate?", status := "pending"
            , result := none, error := none, created_at := some "T0"
            , completed_at := none })]
    "p1" "T1"
    { process_id := "p1", query := "Should I migrate?", status := "pending"
    , result := none, error := none, created_at := some "T0", completed_at := none }
    (by decide) (fun _ _ => rfl) (fun _ _ => rfl) (fun _ _ => rfl)
    (fun _ _ => rfl) (fun _ _ => rfl) (fun _ _ => rfl) (fun _ _ => rfl) rfl rfl

/-! ## C5: ProcessRecord status is forward-only -/

/-- The two facts about `save`/`get` that both repository backends satisfy
and that the status lifecycle rests on: a saved record is read back with
the saved status, and saving does not disturb other ids. -/
structure RepoLaws (σ : Type) (repo : RepoImpl σ) : Prop where
  get_save_status : ∀ (s : σ) (r : ProcessInfo),
    (repo.get (repo.save s r) r.process_id).map ProcessInfo.status = some r.status
  get_save_other : ∀ (s : σ) (r : ProcessInfo) (k : String), k ≠ r.process_id →
    repo.get (repo.save s r) k = repo.get s k

theorem memRepo_laws : RepoLaws InMemoryProcessRepository.Storage memRepo := by
  constructor
  · intro s r
    show (InMemoryProcessRepository.get (InMemoryProcessRepository.save s r)
      r.process_id).map ProcessInfo.status = some r.status
    unfold InMemoryProcessRepository.get InMemoryProcessRepository.save
    rw [lookup_alInsert_self]
    rfl
  · intro s r k hk
    show InMemoryProcessRepository.get (InMemoryProcessRepository.save s r) k
      = InMemoryProcessRepository.get s k
    unfold InMemoryProcessRepository.get InMemoryProcessRepository.save
    exact lookup_alInsert_other _ _ _ _ hk

theorem redisRepo_laws (parseTime : String → Int) :
    RepoLaws RedisProcessRepository.RedisState (redisRepo parseTime) := by
  constructor
  · intro s r
    show (RedisProcessRepository.get (RedisProcessRepository.save parseTime s r)
      r.process_id).map ProcessInfo.status = some r.status
    unfold RedisProcessRepository.get RedisProcessRepository.save
    simp only [lookup_alInsert_self]
    rfl
  · intro s r k hk
    show RedisProcessRepository.get (RedisProcessRepository.save parseTime s r) k
      = RedisProcessRepository.get s k
    unfold RedisProcessRepository.get RedisProcessRepository.save
    simp only [lookup_alInsert_other _ k _ _ hk]
    cases hres : RedisProcessRepository.resultEntry r with
    | none => rfl
    | some e =>
        have he1 : e.1 = r.process_id := by
          unfold RedisProcessRepository.resultEntry at hres
          cases hr : r.result with
          | none => rw [hr] at hres; exact absurd hres (by simp)
          | some st =>
              rw [hr] at hres
              have he : (r.process_id, st) = e := by simpa using hres
              rw [← he]
        have hk2 : k ≠ e.1 := by rw [he1]; exact hk
        simp only [lookup_alInsert_other _ k _ _ hk2]

/-- A status is terminal when it is `completed` or `failed`. -/
def terminalStatus (st : String) : Prop := st = "completed" ∨ st = "failed"

/-- Well-formed operation sequences: `create_process` only ever runs with a
fresh id (the manager generates globally unique uuid-based ids,
process_manager.py:171). -/
inductive ValidOps {σ : Type} (repo : RepoImpl σ) : σ → List ProcessManager.MOp → Prop where
  | nil : ∀ s, ValidOps repo s []
  | create : ∀ s pid q t ops, repo.get s pid = none →
      ValidOps repo (ProcessManager.applyOp repo s (.create pid q t)) ops →
      ValidOps repo s (.create pid q t :: ops)
  | execute : ∀ s pid q outcome t ops,
      ValidOps repo (ProcessManager.applyOp repo s (.execute pid q outcome t)) ops →
      ValidOps repo s (.execute pid q outcome t :: ops)

/-- Saving a record with terminal status preserves "the record at `pid`
is observed with terminal status", whichever id was written. -/
theorem get_after_terminal_save {σ : Type} (repo : RepoImpl σ) (laws : RepoLaws σ repo)
    (s : σ) (rcd : ProcessInfo) (pid : String) (r : ProcessInfo)
    (hget : repo.get s pid = some r) (hterm : terminalStatus r.status)
    (hterm2 : terminalStatus rcd.status) :
    ∃ r2, repo.get (repo.save s rcd) pid = some r2 ∧ terminalStatus r2.status := by
  by_cases hpe : pid = rcd.process_id
  · subst hpe
    obtain ⟨r2, hr2, hst⟩ := Option.map_eq_some'.mp (laws.get_save_status s rcd)
    exact ⟨r2, hr2, hst ▸ hterm2⟩
  · rw [laws.get_save_other s rcd pid hpe, hget]
    exact ⟨r, rfl, hterm⟩

/-- C5.  Both backends satisfy the two save/get laws, and under those laws
a record once observed with terminal (`completed`/`failed`) status is still
observed with a terminal status after every further sequence of manager
operations: `execute_process` only ever writes `completed` or `failed`, and
`create_process` (which writes `pending`) only ever touches fresh ids — so
no operation makes the record `pending` or `running` again. -/
theorem c5_status_forward_only :
    RepoLaws InMemoryProcessRepository.Storage memRepo
    ∧ (∀ parseTime, RepoLaws RedisProcessRepository.RedisState (redisRepo parseTime))
    ∧ (∀ (σ : Type) (repo : RepoImpl σ), RepoLaws σ repo →
        ∀ (ops : List ProcessManager.MOp) (s : σ) (pid : String) (r : ProcessInfo),
        ValidOps repo s ops →
        repo.get s pid = some r → terminalStatus r.status →
        ∃ r', repo.get (ProcessManager.applyOps repo s ops) pid = some r'
          ∧ terminalStatus r'.status) := by
  refine ⟨memRepo_laws, redisRepo_laws, ?_⟩
  intro σ repo laws ops
  induction ops with
  | nil =>
      intro s pid r _ hget hterm
      exact ⟨r, hget, hterm⟩
  | cons op rest ih =>
      intro s pid r hvalid hget hterm
      have happly : ProcessManager.applyOps repo s (op :: rest)
          = ProcessManager.applyOps repo (ProcessManager.applyOp repo s op) rest := rfl
      rw [happly]
      cases hvalid with
      | create s pid0 q t ops hfresh hrest =>
          have hne : pid ≠ pid0 := by
            intro heq
            rw [heq] at hget
            rw [hget] at hfresh
            exact absurd hfresh (by simp)
          refine ih _ pid r hrest ?_ hterm
          show repo.get (ProcessManager.create_process repo s pid0 q t) pid = some r
          unfold ProcessManager.create_process
          rw [laws.get_save_other s _ pid hne]
          exact hget
      | execute s pid0 q outcome t ops hrest =>
          obtain ⟨r2, hget2, hterm2⟩ : ∃ r2,
              repo.get (ProcessManager.applyOp repo s (.execute pid0 q outcome t)) pid
                = some r2 ∧ terminalStatus r2.status := by
            show ∃ r2, repo.get (ProcessManager.execute_process repo s pid0 q outcome t) pid
              = some r2 ∧ terminalStatus r2.status
            unfold ProcessManager.execute_process
            cases hg : repo.get s pid0 with
            | none =>
                cases q <;> cases outcome <;> simp only [hg] <;> exact ⟨r, hget, hterm⟩
            | some pi =>
                cases q <;> cases outcome <;> simp only [hg] <;>
                  first
                    | exact get_after_terminal_save repo laws s _ pid r hget hterm (Or.inr rfl)
                    | exact get_after_terminal_save repo laws s _ pid r hget hterm (Or.inl rfl)
          exact ih _ pid r2 hrest hget2 hterm2

/-- Witness for C5: a completed record stays terminal across a further
(duplicate) `execute_process` that fails late. -/
theorem c5_witness :
    ∃ r', memRepo.get
        (ProcessManager.applyOps memRepo
          [("p1", { process_id := "p1", query := "q", status := "completed"
                  , result := some {}, error := none, created_at := some "T0"
                  , completed_at := some "T1" })]
          [ProcessManager.MOp.execute "p1" (some "q") (.error "late failure") "T2"])
        "p1" = some r'
      ∧ terminalStatus r'.status :=
  c5_status_forward_only.2.2 _ memRepo memRepo_laws _
    [("p1", { process_id := "p1", query := "q", status := "completed"
            , result := some {}, error := none, created_at := some "T0"
            , completed_at := some "T1" })]
    "p1"
    { process_id := "p1", query := "q", status := "completed"
    , result := some {}, error := none, created_at := some "T0"
    , completed_at := some "T1" }
    (ValidOps.execute _ "p1" (some "q") (.error "late failure") "T2" [] (ValidOps.nil _))
    rfl (Or.inl rfl)

/-! ## C2: what `cleanup_completed` removes -/

theorem alInsert_fresh {α : Type} (k : String) (v : α) (l : List (String × α))
    (h : k ∉ l.map Prod.fst) : alInsert k v l = l ++ [(k, v)] := by
  induction l with
  | nil => rfl
  | cons p t ih =>
      obtain ⟨k2, v2⟩ := p
      simp only [List.map_cons, List.mem_cons] at h
      push_neg at h
      simp only [alInsert, if_neg (fun he : k2 = k => h.1 he.symm), ih h.2, List.cons_append]

theorem saddList_fresh (s : List String) (x : String) (h : x ∉ s) :
    RedisProcessRepository.saddList s x = s ++ [x] := by
  simp [RedisProcessRepository.saddList, h]

/-- Erasing all the ids of a list from an in-memory store, one `del` at a
time, leaves exactly the entries whose key is not among the ids. -/
theorem lookup_foldl_alErase {α : Type} (ids : List String) (s : List (String × α))
    (pid : String) :
    List.lookup pid (ids.foldl (fun acc k => alErase k acc) s)
      = if pid ∈ ids then none else List.lookup pid s := by
  induction ids generalizing s with
  | nil => simp
  | cons k rest ih =>
      simp only [List.foldl_cons]
      rw [ih]
      by_cases hmem : pid ∈ rest
      · simp [hmem]
      · by_cases hpk : pid = k
        · subst hpk
          simp [hmem, lookup_alErase_self]
        · simp [hmem, hpk, lookup_alErase_other _ _ _ hpk]

/-- C2 counterexample.  A record completed *now* (0 hours ago, under the
time interpretation sending its timestamp to `now = 0`) is nonetheless
removed by the in-memory `cleanup_completed(24)` — the threshold is
ignored — while the Redis implementation, as the claim demands, keeps it
(its score 0 is above the cutoff `0 - 24*3600`). -/
theorem c2_counterexample :
    (InMemoryProcessRepository.cleanup_completed
        [("p1", { process_id := "p1", query := "q", status := "completed"
                , result := none, error := none, created_at := some "T0"
                , completed_at := some "T0" })] 24).1 = 1
    ∧ ((InMemoryProcessRepository.cleanup_completed
        [("p1", { process_id := "p1", query := "q", status := "completed"
                , result := none, error := none, created_at := some "T0"
                , completed_at := some "T0" })] 24).2).lookup "p1" = none
    ∧ (RedisProcessRepository.cleanup_completed
        (RedisProcessRepository.save (fun _ => 0) RedisProcessRepository.emptyState
          { process_id := "p1", query := "q", status := "completed"
          , result := none, error := none, created_at := some "T0"
          , completed_at := some "T0" }) 24 0).1 = 0
    ∧ RedisProcessRepository.get
        (RedisProcessRepository.cleanup_completed
          (RedisProcessRepository.save (fun _ => 0) RedisProcessRepository.emptyState
            { process_id := "p1", query := "q", status := "completed"
            , result := none, error := none, created_at := some "T0"
            , completed_at := some "T0" }) 24 0).2 "p1"
      = some { process_id := "p1", query := "q", status := "completed"
             , result := none, error := none, created_at := some "T0"
             , completed_at := some "T0" }
    ∧ (0 : Int) - (fun _ : String => (0 : Int)) "T0" < 24 * 3600 := by
  refine ⟨rfl, rfl, rfl, rfl, by decide⟩

/-- What one Redis `delete` does to a later `get`: the deleted id reads as
absent (when the id was a member of `processes:all`), every other id is
untouched. -/
theorem redis_get_delete (rs : RedisProcessRepository.RedisState) (pid j : String) :
    RedisProcessRepository.get (RedisProcessRepository.delete rs pid).2 j
      = if j = pid ∧ pid ∈ rs.allSet then none
        else RedisProcessRepository.get rs j := by
  by_cases hex : pid ∈ rs.allSet
  · have hd : (RedisProcessRepository.delete rs pid).2 =
        { meta := alErase pid rs.meta, results := alErase pid rs.results
        , allSet := rs.allSet.filter (fun x => x ≠ pid)
        , completedZ := alErase pid rs.completedZ } := by
      unfold RedisProcessRepository.delete RedisProcessRepository.existsId
      simp [hex]
    rw [hd]
    by_cases hj : j = pid
    · subst hj
      simp [RedisProcessRepository.get, lookup_alErase_self, hex]
    · simp only [hj, false_and, if_false]
      unfold RedisProcessRepository.get
      rw [lookup_alErase_other pid j rs.meta hj, lookup_alErase_other pid j rs.results hj]
  · have hd : (RedisProcessRepository.delete rs pid).2 = rs := by
      unfold RedisProcessRepository.delete RedisProcessRepository.existsId
      simp [hex]
    rw [hd, if_neg (fun hc => hex hc.2)]

/-- Folding Redis `delete` over a duplicate-free list of ids that are all
members of `processes:all` removes exactly those ids. -/
theorem redis_get_foldl_delete (ids : List String)
    (rs : RedisProcessRepository.RedisState) (j : String)
    (hsub : ∀ i ∈ ids, i ∈ rs.allSet) (hnd : ids.Nodup) :
    RedisProcessRepository.get
        (ids.foldl (fun acc pid => (RedisProcessRepository.delete acc pid).2) rs) j
      = if j ∈ ids then none else RedisProcessRepository.get rs j := by
  induction ids generalizing rs with
  | nil => simp
  | cons i rest ih =>
      simp only [List.foldl_cons]
      simp only [List.nodup_cons] at hnd
      have hiex : i ∈ rs.allSet := hsub i (by simp)
      have hsub2 : ∀ x ∈ rest, x ∈ (RedisProcessRepository.delete rs i).2.allSet := by
        intro x hx
        have hxi : x ≠ i := fun he => hnd.1 (he ▸ hx)
        have : x ∈ rs.allSet := hsub x (by simp [hx])
        unfold RedisProcessRepository.delete RedisProcessRepository.existsId
        simp [hiex, List.mem_filter, this, hxi]
      rw [ih _ hsub2 hnd.2]
      by_cases hmem : j ∈ rest
      · simp [hmem]
      · rw [if_neg hmem, redis_get_delete]
        by_cases hji : j = i
        · subst hji
          simp [hiex]
        · simp [hji, hmem]

theorem resultEntry_key (r : ProcessInfo) (e : String × DecisionState)
    (h : RedisProcessRepository.resultEntry r = some e) : e.1 = r.process_id := by
  unfold RedisProcessRepository.resultEntry at h
  cases hr : r.result with
  | none => rw [hr] at h; exact absurd h (by simp)
  | some st =>
      rw [hr] at h
      have he : (r.process_id, st) = e := by simpa using h
      rw [← he]

theorem zEntry_key (pt : String → Int) (r : ProcessInfo) (e : String × Int)
    (h : RedisProcessRepository.zEntry pt r = some e) : e.1 = r.process_id := by
  unfold RedisProcessRepository.zEntry at h
  split at h
  · have he : (r.process_id, pt (r.completed_at.getD "")) = e := by simpa using h
    rw [← he]
  · exact absurd h (by simp)

/-- A store built by saving pairwise-fresh records into a Redis state has
each data structure equal to the old one extended by the records' writes,
in order. -/
theorem foldl_save_components (pt : String → Int) (recs : List ProcessInfo) :
    ∀ (rs : RedisProcessRepository.RedisState),
    (∀ r ∈ recs, r.process_id ∉ rs.meta.map Prod.fst) →
    (∀ r ∈ recs, r.process_id ∉ rs.results.map Prod.fst) →
    (∀ r ∈ recs, r.process_id ∉ rs.allSet) →
    (∀ r ∈ recs, r.process_id ∉ rs.completedZ.map Prod.fst) →
    (recs.map (fun r => r.process_id)).Nodup →
    recs.foldl (RedisProcessRepository.save pt) rs =
      { meta := rs.meta ++ recs.map (fun r => (r.process_id, RedisProcessRepository.encodeMeta r))
      , results := rs.results ++ recs.filterMap RedisProcessRepository.resultEntry
      , allSet := rs.allSet ++ recs.map (fun r => r.process_id)
      , completedZ := rs.completedZ ++ recs.filterMap (RedisProcessRepository.zEntry pt) } := by
  induction recs with
  | nil =>
      intro rs _ _ _ _ _
      simp only [List.foldl_nil, List.map_nil, List.filterMap_nil, List.append_nil]
  | cons r rest ih =>
      intro rs hm hr ha hz hnd
      simp only [List.map_cons, List.nodup_cons] at hnd
      have hne : ∀ q ∈ rest, q.process_id ≠ r.process_id := by
        intro q hq he
        exact hnd.1 (he ▸ (List.mem_map.mpr ⟨q, hq, rfl⟩))
      have hsave : RedisProcessRepository.save pt rs r =
          { meta := rs.meta ++ [(r.process_id, RedisProcessRepository.encodeMeta r)]
          , results := rs.results ++ (RedisProcessRepository.resultEntry r).toList
          , allSet := rs.allSet ++ [r.process_id]
          , completedZ := rs.completedZ ++ (RedisProcessRepository.zEntry pt r).toList } := by
        unfold RedisProcessRepository.save
        simp only [RedisProcessRepository.RedisState.mk.injEq]
        refine ⟨alInsert_fresh _ _ _ (hm r (by simp)), ?_,
          saddList_fresh _ _ (ha r (by simp)), ?_⟩
        · cases hre : RedisProcessRepository.resultEntry r with
          | none => simp
          | some e =>
              have hfresh : e.1 ∉ rs.results.map Prod.fst := by
                rw [resultEntry_key r e hre]
                exact hr r (by simp)
              simp [alInsert_fresh e.1 e.2 rs.results hfresh]
        · cases hze : RedisProcessRepository.zEntry pt r with
          | none => simp
          | some e =>
              have hfresh : e.1 ∉ rs.completedZ.map Prod.fst := by
                rw [zEntry_key pt r e hze]
                exact hz r (by simp)
              simp [alInsert_fresh e.1 e.2 rs.completedZ hfresh]
      have hm2 : ∀ q ∈ rest, q.process_id ∉
          (rs.meta ++ [(r.process_id, RedisProcessRepository.encodeMeta r)]).map Prod.fst := by
        intro q hq
        have h1 := hm q (by simp [hq])
        simp only [List.map_append, List.mem_append]
        rintro (hc | hc)
        · exact h1 hc
        · simp at hc
          exact hne q hq hc
      have hr2 : ∀ q ∈ rest, q.process_id ∉
          (rs.results ++ (RedisProcessRepository.resultEntry r).toList).map Prod.fst := by
        intro q hq
        have h1 := hr q (by simp [hq])
        simp only [List.map_append, List.mem_append]
        rintro (hc | hc)
        · exact h1 hc
        · cases hre : RedisProcessRepository.resultEntry r with
          | none => rw [hre] at hc; simp at hc
          | some e =>
              rw [hre] at hc
              simp at hc
              exact hne q hq (hc.trans (resultEntry_key r e hre))
      have ha2 : ∀ q ∈ rest, q.process_id ∉ rs.allSet ++ [r.process_id] := by
        intro q hq
        have h1 := ha q (by simp [hq])
        simp only [List.mem_append]
        rintro (hc | hc)
        · exact h1 hc
        · simp at hc
          exact hne q hq hc
      have hz2 : ∀ q ∈ rest, q.process_id ∉
          (rs.completedZ ++ (RedisProcessRepository.zEntry pt r).toList).map Prod.fst := by
        intro q hq
        have h1 := hz q (by simp [hq])
        simp only [List.map_append, List.mem_append]
        rintro (hc | hc)
        · exact h1 hc
        · cases hze : RedisProcessRepository.zEntry pt r with
          | none => rw [hze] at hc; simp at hc
          | some e =>
              rw [hze] at hc
              simp at hc
              exact hne q hq (hc.trans (zEntry_key pt r e hze))
      rw [List.foldl_cons, hsave, ih _ hm2 hr2 ha2 hz2 hnd.2]
      cases hre : RedisProcessRepository.resultEntry r <;>
        cases hze : RedisProcessRepository.zEntry pt r <;>
          simp [List.filterMap_cons, hre, hze, List.append_assoc]

/-- With duplicate-free keys, `lookup` and membership agree. -/
theorem lookup_eq_some_iff_mem {α : Type} (s : List (String × α)) (pid : String) (r : α)
    (hnd : (s.map Prod.fst).Nodup) :
    List.lookup pid s = some r ↔ (pid, r) ∈ s := by
  induction s with
  | nil => simp
  | cons p t ih =>
      obtain ⟨k, v⟩ := p
      simp only [List.map_cons, List.nodup_cons] at hnd
      by_cases hk : pid = k
      · subst hk
        simp only [List.lookup, beq_self_eq_true]
        constructor
        · intro h
          have : v = r := by simpa using h
          simp [this]
        · intro h
          rcases List.mem_cons.mp h with h | h
          · have hrv : r = v := congrArg Prod.snd h
            simp [hrv]
          · exact absurd (List.mem_map.mpr ⟨(pid, r), h, rfl⟩) hnd.1
      · have hbeq : (pid == k) = false := beq_eq_false_iff_ne.mpr hk
        simp only [List.lookup, hbeq, List.mem_cons]
        rw [ih hnd.2]
        constructor
        · exact Or.inr
        · rintro (h | h)
          · exact absurd (congrArg Prod.fst h) hk
          · exact h

/-- The `buildRedis pt recs` store: the Redis database holding exactly the
given records, each saved once. -/
def buildRedis (pt : String → Int) (recs : List ProcessInfo) :
    RedisProcessRepository.RedisState :=
  recs.foldl (RedisProcessRepository.save pt) RedisProcessRepository.emptyState

theorem buildRedis_components (pt : String → Int) (recs : List ProcessInfo)
    (hnd : (recs.map (fun r => r.process_id)).Nodup) :
    buildRedis pt recs =
      { meta := recs.map (fun r => (r.process_id, RedisProcessRepository.encodeMeta r))
      , results := recs.filterMap RedisProcessRepository.resultEntry
      , allSet := recs.map (fun r => r.process_id)
      , completedZ := recs.filterMap (RedisProcessRepository.zEntry pt) } := by
  unfold buildRedis
  rw [foldl_save_components pt recs RedisProcessRepository.emptyState
    (by simp [RedisProcessRepository.emptyState])
    (by simp [RedisProcessRepository.emptyState])
    (by simp [RedisProcessRepository.emptyState])
    (by simp [RedisProcessRepository.emptyState]) hnd]
  simp [RedisProcessRepository.emptyState]

theorem zKeys_sublist (pt : String → Int) (recs : List ProcessInfo) :
    ((recs.filterMap (RedisProcessRepository.zEntry pt)).map Prod.fst).Sublist
      (recs.map (fun r => r.process_id)) := by
  induction recs with
  | nil => simp
  | cons r rest ih =>
      rw [List.filterMap_cons]
      cases hze : RedisProcessRepository.zEntry pt r with
      | none =>
          simp only [List.map_cons]
          exact ih.cons _
      | some e =>
          simp only [List.map_cons]
          rw [zEntry_key pt r e hze]
          exact ih.cons₂ _

/-- Membership of a stored record's id in the set of sorted-set entries at
or below the cutoff. -/
theorem mem_zfilter_iff (pt : String → Int) (recs : List ProcessInfo) (cut : Int)
    (hnd : (recs.map (fun r => r.process_id)).Nodup)
    (r : ProcessInfo) (hr : r ∈ recs) :
    r.process_id ∈ (((recs.filterMap (RedisProcessRepository.zEntry pt)).filter
        (fun e => e.2 ≤ cut)).map (fun p => p.1))
      ↔ ∃ e, RedisProcessRepository.zEntry pt r = some e ∧ e.2 ≤ cut := by
  constructor
  · intro h
    rw [List.mem_map] at h
    obtain ⟨e, he, hk⟩ := h
    rw [List.mem_filter] at he
    obtain ⟨hez, hcut⟩ := he
    rw [List.mem_filterMap] at hez
    obtain ⟨r2, hr2, hze2⟩ := hez
    have hk2 := zEntry_key pt r2 e hze2
    have hr2r : r2 = r :=
      List.inj_on_of_nodup_map hnd hr2 hr (by rw [← hk2]; exact hk)
    rw [hr2r] at hze2
    exact ⟨e, hze2, by simpa using hcut⟩
  · rintro ⟨e, hze, hcut⟩
    rw [List.mem_map]
    refine ⟨e, ?_, zEntry_key pt r e hze⟩
    rw [List.mem_filter]
    exact ⟨List.mem_filterMap.mpr ⟨r, hr, hze⟩, by simpa using hcut⟩

theorem zEntry_none_cond (pt : String → Int) (r : ProcessInfo)
    (h : RedisProcessRepository.zEntry pt r = none) :
    ¬ ((r.status = "completed" ∨ r.status = "failed") ∧ r.completed_at.getD "" ≠ "") := by
  unfold RedisProcessRepository.zEntry at h
  split at h
  · exact absurd h (by simp)
  · assumption

theorem zEntry_some_cond (pt : String → Int) (r : ProcessInfo)
    (e : String × Int) (h : RedisProcessRepository.zEntry pt r = some e) :
    (r.status = "completed" ∨ r.status = "failed") ∧ r.completed_at.getD "" ≠ ""
    ∧ e = (r.process_id, pt (r.completed_at.getD "")) := by
  unfold RedisProcessRepository.zEntry at h
  split at h
  · rename_i hcond
    have he : (r.process_id, pt (r.completed_at.getD "")) = e := by simpa using h
    exact ⟨hcond.1, hcond.2, he.symm⟩
  · exact absurd h (by simp)

/-- The number of sorted-set entries at or below the cutoff equals the
number of valid stored records that are completed/failed and old enough. -/
theorem zfilter_length (pt : String → Int) (recs : List ProcessInfo) (cut : Int)
    (hvalid : ∀ r ∈ recs, (r.status = "completed" ∨ r.status = "failed") →
      r.completed_at.getD "" ≠ "") :
    ((recs.filterMap (RedisProcessRepository.zEntry pt)).filter
        (fun e => e.2 ≤ cut)).length
      = (recs.filter (fun r => decide ((r.status = "completed" ∨ r.status = "failed")
          ∧ pt (r.completed_at.getD "") ≤ cut))).length := by
  induction recs with
  | nil => simp
  | cons r rest ih =>
      have ih2 := ih (fun q hq => hvalid q (by simp [hq]))
      rw [List.filterMap_cons, List.filter_cons]
      cases hze : RedisProcessRepository.zEntry pt r with
      | none =>
          have hnc := zEntry_none_cond pt r hze
          have hterm : ¬ (r.status = "completed" ∨ r.status = "failed") := by
            intro ht
            exact hnc ⟨ht, hvalid r (by simp) ht⟩
          simp [hterm, ih2]
      | some e =>
          obtain ⟨hterm, hca, he⟩ := zEntry_some_cond pt r e hze
          rw [List.filter_cons]
          by_cases hcut : e.2 ≤ cut
          · have : pt (r.completed_at.getD "") ≤ cut := by rw [he] at hcut; exact hcut
            simp [hcut, hterm, this, ih2]
          · have : ¬ pt (r.completed_at.getD "") ≤ cut := by rw [he] at hcut; exact hcut
            simp [hcut, hterm, this, ih2]

/-- `cleanup_completed` on Redis, with the `let`s spelled out. -/
theorem redis_cleanup_eq (rs : RedisProcessRepository.RedisState) (h : Nat) (now : Int) :
    RedisProcessRepository.cleanup_completed rs h now
      = ( ((rs.completedZ.filter (fun p => p.2 ≤ now - h * 3600)).map (fun p => p.1)).length
        , ((rs.completedZ.filter (fun p => p.2 ≤ now - h * 3600)).map (fun p => p.1)).foldl
            (fun acc pid => (RedisProcessRepository.delete acc pid).2) rs ) := rfl

/-- C2 amended.  Neither implementation ever removes a `pending`/`running`
record.  The Redis adapter removes exactly the stored completed/failed
records whose parsed completion timestamp is at or below `now - h*3600`
(over a store of distinct, well-timestamped records).  The in-memory map,
however, ignores the threshold: it removes every completed/failed record
regardless of its completion time, and its count is the number of all
completed/failed records. -/
theorem c2_cleanup_completed_amended :
    (∀ (s : InMemoryProcessRepository.Storage) (h : Nat) (pid : String),
        (s.map Prod.fst).Nodup →
        ((InMemoryProcessRepository.cleanup_completed s h).2.lookup pid
          = match s.lookup pid with
            | some r =>
                if r.status = "completed" ∨ r.status = "failed" then none else some r
            | none => none)
        ∧ (InMemoryProcessRepository.cleanup_completed s h).1
            = (s.filter (fun p =>
                p.2.status = "completed" ∨ p.2.status = "failed")).length)
    ∧ (∀ (pt : String → Int) (recs : List ProcessInfo) (h : Nat) (now : Int),
        (recs.map (fun r => r.process_id)).Nodup →
        (∀ r ∈ recs, (r.status = "completed" ∨ r.status = "failed") →
          r.completed_at.getD "" ≠ "") →
        (∀ r ∈ recs,
          RedisProcessRepository.get
              (RedisProcessRepository.cleanup_completed (buildRedis pt recs) h now).2
              r.process_id
            = if (r.status = "completed" ∨ r.status = "failed")
                  ∧ pt (r.completed_at.getD "") ≤ now - h * 3600
              then none
              else RedisProcessRepository.get (buildRedis pt recs) r.process_id)
        ∧ (RedisProcessRepository.cleanup_completed (buildRedis pt recs) h now).1
            = (recs.filter (fun r =>
                decide ((r.status = "completed" ∨ r.status = "failed")
                  ∧ pt (r.completed_at.getD "") ≤ now - h * 3600))).length) := by
  constructor
  · intro s h pid hnd
    constructor
    · show List.lookup pid _ = _
      unfold InMemoryProcessRepository.cleanup_completed
      dsimp only
      rw [lookup_foldl_alErase]
      cases hlook : List.lookup pid s with
      | none =>
          simp only [hlook, ite_self]
      | some r =>
          have hmem_iff : pid ∈ (s.filter (fun p =>
              p.2.status = "completed" ∨ p.2.status = "failed")).map (fun p => p.1)
              ↔ (r.status = "completed" ∨ r.status = "failed") := by
            constructor
            · intro hm
              rw [List.mem_map] at hm
              obtain ⟨p, hp, hk⟩ := hm
              rw [List.mem_filter] at hp
              have hps : (p.1, p.2) ∈ s := by rw [Prod.mk.eta]; exact hp.1
              rw [hk] at hps
              have hlp := (lookup_eq_some_iff_mem s pid p.2 hnd).mpr hps
              rw [hlook] at hlp
              have : r = p.2 := by simpa using hlp
              rw [this]
              simpa using hp.2
            · intro hterm
              rw [List.mem_map]
              refine ⟨(pid, r), ?_, rfl⟩
              rw [List.mem_filter]
              exact ⟨(lookup_eq_some_iff_mem s pid r hnd).mp hlook, by simpa using hterm⟩
          simp only [hlook]
          by_cases hterm : r.status = "completed" ∨ r.status = "failed"
          · rw [if_pos (hmem_iff.mpr hterm), if_pos hterm]
          · rw [if_neg (fun hm => hterm (hmem_iff.mp hm)), if_neg hterm]
    · unfold InMemoryProcessRepository.cleanup_completed
      dsimp only
      simp [List.length_map]
  · intro pt recs h now hnd hvalid
    have hcomp := buildRedis_components pt recs hnd
    have hcut : ∀ (r : ProcessInfo), r ∈ recs →
        (r.process_id ∈ (((recs.filterMap (RedisProcessRepository.zEntry pt)).filter
            (fun p => p.2 ≤ now - h * 3600)).map (fun p => p.1))
          ↔ (r.status = "completed" ∨ r.status = "failed")
              ∧ pt (r.completed_at.getD "") ≤ now - h * 3600) := by
      intro r hr
      rw [mem_zfilter_iff pt recs _ hnd r hr]
      constructor
      · rintro ⟨e, hze, hc⟩
        obtain ⟨hterm, hca, he⟩ := zEntry_some_cond pt r e hze
        refine ⟨hterm, ?_⟩
        rw [he] at hc
        exact hc
      · rintro ⟨hterm, hc⟩
        refine ⟨(r.process_id, pt (r.completed_at.getD "")), ?_, hc⟩
        unfold RedisProcessRepository.zEntry
        rw [if_pos ⟨hterm, hvalid r hr hterm⟩]
    have hsub : ∀ i ∈ (((recs.filterMap (RedisProcessRepository.zEntry pt)).filter
        (fun p => p.2 ≤ now - h * 3600)).map (fun p => p.1)),
        i ∈ (buildRedis pt recs).allSet := by
      intro i hi
      rw [List.mem_map] at hi
      obtain ⟨e, he, hk⟩ := hi
      rw [List.mem_filter] at he
      rw [List.mem_filterMap] at he
      obtain ⟨⟨r2, hr2, hze2⟩, _⟩ := he
      rw [hcomp]
      show i ∈ recs.map (fun r => r.process_id)
      rw [List.mem_map]
      exact ⟨r2, hr2, by rw [← hk, zEntry_key pt r2 e hze2]⟩
    have hndold : ((((recs.filterMap (RedisProcessRepository.zEntry pt)).filter
        (fun p => p.2 ≤ now - h * 3600)).map (fun p => p.1))).Nodup := by
      have h1 : ((((recs.filterMap (RedisProcessRepository.zEntry pt)).filter
          (fun p => p.2 ≤ now - h * 3600)).map (fun p => p.1))).Sublist
          ((recs.filterMap (RedisProcessRepository.zEntry pt)).map (fun p => p.1)) :=
        List.Sublist.map _ (List.filter_sublist _)
      have h2 : (((recs.filterMap (RedisProcessRepository.zEntry pt)).map
          (fun p => p.1))).Sublist (recs.map (fun r => r.process_id)) :=
        zKeys_sublist pt recs
      exact List.Nodup.sublist (h1.trans h2) hnd
    constructor
    · intro r hr
      conv_lhs => rw [redis_cleanup_eq]
      have hz_eq : (buildRedis pt recs).completedZ
          = recs.filterMap (RedisProcessRepository.zEntry pt) := by rw [hcomp]
      rw [hz_eq]
      rw [redis_get_foldl_delete _ _ _ (fun i hi => hsub i hi) hndold]
      exact if_congr (hcut r hr) rfl rfl
    · rw [redis_cleanup_eq]
      show (((buildRedis pt recs).completedZ.filter
          (fun p => p.2 ≤ now - h * 3600)).map (fun p => p.1)).length = _
      have hz_eq : (buildRedis pt recs).completedZ
          = recs.filterMap (RedisProcessRepository.zEntry pt) := by rw [hcomp]
      rw [hz_eq, List.length_map]
      exact zfilter_length pt recs _ hvalid

/-- Witness for C2's amended theorem: one fresh completed record and one
pending record; the in-memory cleanup removes the completed one (and only
it), the Redis cleanup removes nothing because the record is 0 hours old. -/
theorem c2_witness :
    ((InMemoryProcessRepository.cleanup_completed
        [ ("p1", { process_id := "p1", query := "q", status := "completed"
                 , result := none, error := none, created_at := some "T0"
                 , completed_at := some "T0" })
        , ("p2", { process_id := "p2", query := "q", status := "pending"
                 , result := none, error := none, created_at := some "T0"
                 , completed_at := none }) ] 24).2.lookup "p2"
      = some { process_id := "p2", query := "q", status := "pending"
             , result := none, error := none, created_at := some "T0"
             , completed_at := none })
    ∧ (RedisProcessRepository.cleanup_completed
        (buildRedis (fun _ => 0)
          [ { process_id := "p1", query := "q", status := "completed"
            , result := none, error := none, created_at := some "T0"
            , completed_at := some "T0" } ]) 24 0).1 = 0 := by
  constructor
  · have h := (c2_cleanup_completed_amended.1
      [ ("p1", { process_id := "p1", query := "q", status := "completed"
               , result := none, error := none, created_at := some "T0"
               , completed_at := some "T0" })
      , ("p2", { process_id := "p2", query := "q", status := "pending"
               , result := none, error := none, created_at := some "T0"
               , completed_at := none }) ] 24 "p2" (by decide)).1
    rw [h]
    rfl
  · have h := ((c2_cleanup_completed_amended.2 (fun _ => 0)
      [ { process_id := "p1", query := "q", status := "completed"
        , result := none, error := none, created_at := some "T0"
        , completed_at := some "T0" } ] 24 0 (by decide) (by decide)).2)
    rw [h]
    rfl

/-! ## C3: `result` iff completed, `error` iff failed -/

/-- The three record shapes the manager produces: a pending record (no
result, no error), a completed one (result, no error), a failed one
(error, no result). -/
def recShape (r : ProcessInfo) : Prop :=
  (r.status = "pending" ∧ r.result = none ∧ r.error = none)
  ∨ (r.status = "completed" ∧ r.result.isSome ∧ r.error = none)
  ∨ (r.status = "failed" ∧ r.error.isSome ∧ r.result = none)

/-- Any record of one of the three shapes satisfies the claimed
equivalences. -/
theorem recShape_iff (r : ProcessInfo) (h : recShape r) :
    (r.result.isSome ↔ r.status = "completed")
    ∧ (r.error.isSome ↔ r.status = "failed") := by
  rcases h with ⟨hs, hr, he⟩ | ⟨hs, hr, he⟩ | ⟨hs, he, hr⟩ <;>
    rw [hs] <;> simp [hr, he] <;> decide

theorem recShape_pending (r : ProcessInfo) (h : recShape r)
    (hs : r.status = "pending") : r.result = none ∧ r.error = none := by
  rcases h with ⟨_, hr, he⟩ | ⟨hc, _, _⟩ | ⟨hc, _, _⟩
  · exact ⟨hr, he⟩
  · rw [hs] at hc; exact absurd hc (by decide)
  · rw [hs] at hc; exact absurd hc (by decide)

/-- Operation sequences following the intended discipline: creates are
fresh with a real timestamp; `execute_process` only runs against a record
that is still `pending` (or absent), with a non-empty error message should
the service fail, and a real completion timestamp. -/
inductive GoodTrace {σ : Type} (repo : RepoImpl σ) : σ → List ProcessManager.MOp → Prop where
  | nil : ∀ s, GoodTrace repo s []
  | create : ∀ s pid q t ops,
      repo.get s pid = none → t ≠ "" →
      GoodTrace repo (ProcessManager.applyOp repo s (.create pid q t)) ops →
      GoodTrace repo s (.create pid q t :: ops)
  | execute : ∀ s pid q outcome t ops,
      (∀ r, repo.get s pid = some r → r.status = "pending") →
      (∀ e, outcome = .error e → e ≠ "") → t ≠ "" →
      GoodTrace repo (ProcessManager.applyOp repo s (.execute pid q outcome t)) ops →
      GoodTrace repo s (.execute pid q outcome t :: ops)

theorem mem_get_save_self (s : InMemoryProcessRepository.Storage) (rec : ProcessInfo) :
    InMemoryProcessRepository.get (InMemoryProcessRepository.save s rec) rec.process_id
      = some rec :=
  lookup_alInsert_self _ _ _

theorem mem_get_save_other (s : InMemoryProcessRepository.Storage) (rec : ProcessInfo)
    (k : String) (h : k ≠ rec.process_id) :
    InMemoryProcessRepository.get (InMemoryProcessRepository.save s rec) k
      = InMemoryProcessRepository.get s k :=
  lookup_alInsert_other _ _ _ _ h

/-- The record `get` reads back at the id just saved: metadata decoded from
the `""`-encoding; the payload is the fresh one if the record carried a
result, and whatever payload was already stored under that id otherwise. -/
theorem redis_get_save_self (pt : String → Int) (s : RedisProcessRepository.RedisState)
    (rec : ProcessInfo) :
    RedisProcessRepository.get (RedisProcessRepository.save pt s rec) rec.process_id
      = some
        { process_id := rec.process_id
        , query := rec.query
        , status := rec.status
        , result := match rec.result with
            | some st => some st
            | none => s.results.lookup rec.process_id
        , error := RedisProcessRepository.decodeOpt (rec.error.getD "")
        , created_at := RedisProcessRepository.decodeOpt (rec.created_at.getD "")
        , completed_at := RedisProcessRepository.decodeOpt (rec.completed_at.getD "") } := by
  unfold RedisProcessRepository.get RedisProcessRepository.save
  rw [lookup_alInsert_self]
  cases hres : rec.result with
  | none =>
      have : RedisProcessRepository.resultEntry rec = none := by
        unfold RedisProcessRepository.resultEntry
        rw [hres]
        rfl
      simp [this, RedisProcessRepository.encodeMeta]
  | some st =>
      have : RedisProcessRepository.resultEntry rec = some (rec.process_id, st) := by
        unfold RedisProcessRepository.resultEntry
        rw [hres]
        rfl
      simp [this, RedisProcessRepository.encodeMeta, lookup_alInsert_self]

/-- `save` cannot create a result payload for an id whose metadata is
absent afterwards. -/
theorem redis_aux_save (pt : String → Int) (s : RedisProcessRepository.RedisState)
    (rec : ProcessInfo)
    (haux : ∀ pid, s.meta.lookup pid = none → s.results.lookup pid = none)
    (pid : String)
    (hm : (RedisProcessRepository.save pt s rec).meta.lookup pid = none) :
    (RedisProcessRepository.save pt s rec).results.lookup pid = none := by
  unfold RedisProcessRepository.save at hm ⊢
  by_cases hp : pid = rec.process_id
  · subst hp
    rw [lookup_alInsert_self] at hm
    exact absurd hm (by simp)
  · rw [lookup_alInsert_other _ _ _ _ hp] at hm
    cases hres : RedisProcessRepository.resultEntry rec with
    | none => simp only [hres]; exact haux pid hm
    | some e =>
        have hk := resultEntry_key rec e hres
        simp only [hres]
        rw [lookup_alInsert_other _ _ _ _ (by rw [hk]; exact hp)]
        exact haux pid hm

/-- C3 counterexample.  (a) In-memory: create, a failing execute, then a
second (racing/duplicate) execute that succeeds — the observed record is
`completed` yet its `error` is still `"boom"`, and its `result` was also
left `null`-free on the failure path's counterpart.  (b) Redis: a failing
execute whose raised message is empty — the observed record is `failed`
yet its `error` reads back as `null`. -/
theorem c3_counterexample :
    (ProcessManager.get_process memRepo
        (ProcessManager.applyOps memRepo []
          [ .create "p1" "Should I migrate to microservices?" "T1"
          , .execute "p1" (some "Should I migrate to microservices?") (.error "boom") "T2"
          , .execute "p1" (some "Should I migrate to microservices?") (.ok {}) "T3" ])
        "p1"
      = some { process_id := "p1", query := "Should I migrate to microservices?"
             , status := "completed", result := some {}, error := some "boom"
             , created_at := some "T1", completed_at := some "T3" })
    ∧ (ProcessManager.get_process (redisRepo (fun _ => 0))
        (ProcessManager.applyOps (redisRepo (fun _ => 0))
          RedisProcessRepository.emptyState
          [ .create "p1" "Should I migrate to microservices?" "T1"
          , .execute "p1" (some "Should I migrate to microservices?") (.error "") "T2" ])
        "p1"
      = some { process_id := "p1", query := "Should I migrate to microservices?"
             , status := "failed", result := none, error := none
             , created_at := some "T1", completed_at := some "T2" }) := by
  exact ⟨rfl, rfl⟩

theorem applyOp_create_mem (s : InMemoryProcessRepository.Storage) (pid q t : String) :
    ProcessManager.applyOp memRepo s (.create pid q t)
      = InMemoryProcessRepository.save s
          { process_id := pid, query := q, status := "pending", result := none
          , error := none, created_at := some t, completed_at := none } := rfl

/-- The in-memory invariant: every stored record has one of the three
shapes.  It is preserved by any well-disciplined operation. -/
theorem mem_inv_preserved (s : InMemoryProcessRepository.Storage)
    (op : ProcessManager.MOp)
    (hinv : ∀ pid r, InMemoryProcessRepository.get s pid = some r → recShape r)
    (hpend : ∀ pid q outcome t, op = .execute pid q outcome t →
      ∀ r, InMemoryProcessRepository.get s pid = some r → r.status = "pending") :
    ∀ pid r, InMemoryProcessRepository.get (ProcessManager.applyOp memRepo s op) pid
      = some r → recShape r := by
  intro pid2 r2 hg2
  cases op with
  | create pid0 q t =>
      rw [applyOp_create_mem] at hg2
      by_cases hp : pid2 = pid0
      · subst hp
        have h1 : InMemoryProcessRepository.get (InMemoryProcessRepository.save s
            { process_id := pid2, query := q, status := "pending", result := none
            , error := none, created_at := some t, completed_at := none }) pid2
            = some { process_id := pid2, query := q, status := "pending", result := none
                   , error := none, created_at := some t, completed_at := none } :=
          mem_get_save_self s _
        rw [h1] at hg2
        have : _ = r2 := Option.some_inj.mp hg2
        rw [← this]
        exact Or.inl ⟨rfl, rfl, rfl⟩
      · have h1 : InMemoryProcessRepository.get (InMemoryProcessRepository.save s
            { process_id := pid0, query := q, status := "pending", result := none
            , error := none, created_at := some t, completed_at := none }) pid2
            = InMemoryProcessRepository.get s pid2 :=
          mem_get_save_other s _ pid2 hp
        rw [h1] at hg2
        exact hinv pid2 r2 hg2
  | execute pid0 q outcome t =>
      have hpend2 := hpend pid0 q outcome t rfl
      cases hg : InMemoryProcessRepository.get s pid0 with
      | none =>
          have hg2e : InMemoryProcessRepository.get
              (ProcessManager.execute_process memRepo s pid0 q outcome t) pid2
              = some r2 := hg2
          unfold ProcessManager.execute_process at hg2e
          simp only [memRepo] at hg2e
          rw [hg] at hg2e
          cases q <;> cases outcome <;> exact hinv pid2 r2 hg2e
      | some pi =>
          have hpi := hinv pid0 pi hg
          obtain ⟨hres, herr0⟩ := recShape_pending pi hpi (hpend2 pi hg)
          have hg2e : InMemoryProcessRepository.get
              (ProcessManager.execute_process memRepo s pid0 q outcome t) pid2
              = some r2 := hg2
          unfold ProcessManager.execute_process at hg2e
          simp only [memRepo] at hg2e
          rw [hg] at hg2e
          cases q <;> cases outcome <;> rename_i z <;>
            first
            | -- service failed: the terminal write is the failed shape
              (have hg3 : InMemoryProcessRepository.get (InMemoryProcessRepository.save s
                   { pi with status := "failed", error := some z, completed_at := some t })
                   pid2 = some r2 := hg2e
               by_cases hp : pid2 = pi.process_id
               · rw [hp] at hg3
                 have h1 : InMemoryProcessRepository.get (InMemoryProcessRepository.save s
                     { pi with status := "failed", error := some z, completed_at := some t })
                     pi.process_id
                     = some { pi with status := "failed", error := some z, completed_at := some t } :=
                   mem_get_save_self s _
                 rw [h1] at hg3
                 rw [← Option.some_inj.mp hg3]
                 exact Or.inr (Or.inr ⟨rfl, rfl, hres⟩)
               · have h1 : InMemoryProcessRepository.get (InMemoryProcessRepository.save s
                     { pi with status := "failed", error := some z, completed_at := some t })
                     pid2 = InMemoryProcessRepository.get s pid2 :=
                   mem_get_save_other s _ pid2 hp
                 rw [h1] at hg3
                 exact hinv pid2 r2 hg3)
            | -- service succeeded: the terminal write is the completed shape
              (have hg3 : InMemoryProcessRepository.get (InMemoryProcessRepository.save s
                   { pi with status := "completed", result := some z, completed_at := some t })
                   pid2 = some r2 := hg2e
               by_cases hp : pid2 = pi.process_id
               · rw [hp] at hg3
                 have h1 : InMemoryProcessRepository.get (InMemoryProcessRepository.save s
                     { pi with status := "completed", result := some z, completed_at := some t })
                     pi.process_id
                     = some { pi with status := "completed", result := some z, completed_at := some t } :=
                   mem_get_save_self s _
                 rw [h1] at hg3
                 rw [← Option.some_inj.mp hg3]
                 exact Or.inr (Or.inl ⟨rfl, rfl, herr0⟩)
               · have h1 : InMemoryProcessRepository.get (InMemoryProcessRepository.save s
                     { pi with status := "completed", result := some z, completed_at := some t })
                     pid2 = InMemoryProcessRepository.get s pid2 :=
                   mem_get_save_other s _ pid2 hp
                 rw [h1] at hg3
                 exact hinv pid2 r2 hg3)

/-- Reading back a record just saved when it carries no result payload:
the payload slot is whatever the store already held under that id. -/
theorem redis_get_save_self_noresult (pt : String → Int)
    (s : RedisProcessRepository.RedisState) (rec : ProcessInfo)
    (h : rec.result = none) :
    RedisProcessRepository.get (RedisProcessRepository.save pt s rec) rec.process_id
      = some
        { process_id := rec.process_id, query := rec.query, status := rec.status, result := s.results.lookup rec.process_id, error := RedisProcessRepository.decodeOpt (rec.error.getD ""), created_at := RedisProcessRepository.decodeOpt (rec.created_at.getD ""), completed_at := RedisProcessRepository.decodeOpt (rec.completed_at.getD "") } := by
  rw [redis_get_save_self pt s rec, h]

/-- Reading back a record just saved when it does carry a result payload. -/
theorem redis_get_save_self_result (pt : String → Int)
    (s : RedisProcessRepository.RedisState) (rec : ProcessInfo) (st : DecisionState)
    (h : rec.result = some st) :
    RedisProcessRepository.get (RedisProcessRepository.save pt s rec) rec.process_id
      = some
        { process_id := rec.process_id, query := rec.query, status := rec.status, result := some st, error := RedisProcessRepository.decodeOpt (rec.error.getD ""), created_at := RedisProcessRepository.decodeOpt (rec.created_at.getD ""), completed_at := RedisProcessRepository.decodeOpt (rec.completed_at.getD "") } := by
  rw [redis_get_save_self pt s rec, h]

/-- A missing metadata hash means `get` misses. -/
theorem redis_get_none_meta (s : RedisProcessRepository.RedisState) (pid : String)
    (h : RedisProcessRepository.get s pid = none) : s.meta.lookup pid = none := by
  unfold RedisProcessRepository.get at h
  cases hm : s.meta.lookup pid with
  | none => rfl
  | some m => rw [hm] at h; exact absurd h (by simp)

/-- The `result` field of any record read from the Redis store is exactly
the payload stored under the queried id. -/
theorem redis_get_result (s : RedisProcessRepository.RedisState) (pid : String)
    (r : ProcessInfo) (h : RedisProcessRepository.get s pid = some r) :
    s.results.lookup pid = r.result := by
  unfold RedisProcessRepository.get at h
  cases hm : s.meta.lookup pid with
  | none => rw [hm] at h; exact absurd h (by simp)
  | some m =>
      rw [hm] at h
      rw [← Option.some_inj.mp h]

/-- The Redis store invariant maintained by the manager: every readable
record has one of the three shapes, records sit under their own id, and a
missing metadata hash has no orphaned result payload. -/
def RedisInv (s : RedisProcessRepository.RedisState) : Prop :=
  (∀ pid r, RedisProcessRepository.get s pid = some r → recShape r)
  ∧ (∀ pid r, RedisProcessRepository.get s pid = some r → r.process_id = pid)
  ∧ (∀ pid, s.meta.lookup pid = none → s.results.lookup pid = none)

/-- The Redis invariant is preserved by any well-disciplined manager
operation. -/
theorem redis_inv_preserved (pt : String → Int)
    (s : RedisProcessRepository.RedisState) (op : ProcessManager.MOp)
    (hinv : RedisInv s)
    (hfresh : ∀ pid q t, op = .create pid q t →
      RedisProcessRepository.get s pid = none)
    (hpend : ∀ pid q outcome t, op = .execute pid q outcome t →
      ∀ r, RedisProcessRepository.get s pid = some r → r.status = "pending")
    (herrne : ∀ pid q e t, op = .execute pid q (.error e) t → e ≠ "") :
    RedisInv (ProcessManager.applyOp (redisRepo pt) s op) := by
  obtain ⟨hshape, hid, haux⟩ := hinv
  cases op with
  | create pid0 q t =>
      have hf := hfresh pid0 q t rfl
      have hm0 := redis_get_none_meta s pid0 hf
      have hr0 := haux pid0 hm0
      have heq : ProcessManager.applyOp (redisRepo pt) s (.create pid0 q t)
          = RedisProcessRepository.save pt s
              { process_id := pid0, query := q, status := "pending", result := none, error := none, created_at := some t, completed_at := none } := rfl
      rw [heq]
      have h1 : RedisProcessRepository.get (RedisProcessRepository.save pt s
          { process_id := pid0, query := q, status := "pending", result := none, error := none, created_at := some t, completed_at := none }) pid0
          = some { process_id := pid0, query := q, status := "pending", result := s.results.lookup pid0, error := RedisProcessRepository.decodeOpt "", created_at := RedisProcessRepository.decodeOpt t, completed_at := RedisProcessRepository.decodeOpt "" } :=
        redis_get_save_self_noresult pt s _ rfl
      rw [hr0] at h1
      refine ⟨?_, ?_, fun pid2 hm2 => redis_aux_save pt s _ haux pid2 hm2⟩
      · intro pid2 r2 hg2
        by_cases hp : pid2 = pid0
        · subst hp
          rw [h1] at hg2
          rw [← Option.some_inj.mp hg2]
          exact Or.inl ⟨rfl, rfl, rfl⟩
        · have h2 : RedisProcessRepository.get (RedisProcessRepository.save pt s
              { process_id := pid0, query := q, status := "pending", result := none, error := none, created_at := some t, completed_at := none }) pid2
              = RedisProcessRepository.get s pid2 :=
            (redisRepo_laws pt).get_save_other s _ pid2 hp
          rw [h2] at hg2
          exact hshape pid2 r2 hg2
      · intro pid2 r2 hg2
        by_cases hp : pid2 = pid0
        · subst hp
          rw [h1] at hg2
          rw [← Option.some_inj.mp hg2]
        · have h2 : RedisProcessRepository.get (RedisProcessRepository.save pt s
              { process_id := pid0, query := q, status := "pending", result := none, error := none, created_at := some t, completed_at := none }) pid2
              = RedisProcessRepository.get s pid2 :=
            (redisRepo_laws pt).get_save_other s _ pid2 hp
          rw [h2] at hg2
          exact hid pid2 r2 hg2
  | execute pid0 q outcome t =>
      cases hg : RedisProcessRepository.get s pid0 with
      | none =>
          have heq : ProcessManager.applyOp (redisRepo pt) s (.execute pid0 q outcome t) = s := by
            unfold ProcessManager.applyOp ProcessManager.execute_process
            simp only [redisRepo]
            rw [hg]
            cases q <;> cases outcome <;> rfl
          rw [heq]
          exact ⟨hshape, hid, haux⟩
      | some pi =>
          have hst := hpend pid0 q outcome t rfl pi hg
          have hpish := hshape pid0 pi hg
          obtain ⟨hpr, hpe⟩ := recShape_pending pi hpish hst
          have hpid := hid pid0 pi hg
          have hlr0 : s.results.lookup pid0 = none :=
            (redis_get_result s pid0 pi hg).trans hpr
          cases outcome with
          | ok st =>
              have heq : ProcessManager.applyOp (redisRepo pt) s (.execute pid0 q (.ok st) t)
                  = RedisProcessRepository.save pt s
                      { pi with status := "completed", result := some st, completed_at := some t } := by
                unfold ProcessManager.applyOp ProcessManager.execute_process
                simp only [redisRepo]
                rw [hg]
                cases q <;> rfl
              rw [heq]
              have h1 : RedisProcessRepository.get (RedisProcessRepository.save pt s
                  { pi with status := "completed", result := some st, completed_at := some t })
                  pi.process_id
                  = some { process_id := pi.process_id, query := pi.query, status := "completed", result := some st, error := RedisProcessRepository.decodeOpt (pi.error.getD ""), created_at := RedisProcessRepository.decodeOpt (pi.created_at.getD ""), completed_at := RedisProcessRepository.decodeOpt t } :=
                redis_get_save_self_result pt s _ st rfl
              refine ⟨?_, ?_, fun pid2 hm2 => redis_aux_save pt s _ haux pid2 hm2⟩
              · intro pid2 r2 hg2
                by_cases hp : pid2 = pi.process_id
                · subst hp
                  rw [h1] at hg2
                  rw [← Option.some_inj.mp hg2]
                  refine Or.inr (Or.inl ⟨rfl, rfl, ?_⟩)
                  show RedisProcessRepository.decodeOpt (pi.error.getD "") = none
                  rw [hpe]
                  rfl
                · have h2 : RedisProcessRepository.get (RedisProcessRepository.save pt s
                      { pi with status := "completed", result := some st, completed_at := some t })
                      pid2 = RedisProcessRepository.get s pid2 :=
                    (redisRepo_laws pt).get_save_other s _ pid2 hp
                  rw [h2] at hg2
                  exact hshape pid2 r2 hg2
              · intro pid2 r2 hg2
                by_cases hp : pid2 = pi.process_id
                · subst hp
                  rw [h1] at hg2
                  rw [← Option.some_inj.mp hg2]
                · have h2 : RedisProcessRepository.get (RedisProcessRepository.save pt s
                      { pi with status := "completed", result := some st, completed_at := some t })
                      pid2 = RedisProcessRepository.get s pid2 :=
                    (redisRepo_laws pt).get_save_other s _ pid2 hp
                  rw [h2] at hg2
                  exact hid pid2 r2 hg2
          | error e =>
              have hene := herrne pid0 q e t rfl
              have heq : ProcessManager.applyOp (redisRepo pt) s (.execute pid0 q (.error e) t)
                  = RedisProcessRepository.save pt s
                      { pi with status := "failed", error := some e, completed_at := some t } := by
                unfold ProcessManager.applyOp ProcessManager.execute_process
                simp only [redisRepo]
                rw [hg]
                cases q <;> rfl
              rw [heq]
              have h1 : RedisProcessRepository.get (RedisProcessRepository.save pt s
                  { pi with status := "failed", error := some e, completed_at := some t })
                  pi.process_id
                  = some { process_id := pi.process_id, query := pi.query, status := "failed", result := s.results.lookup pi.process_id, error := RedisProcessRepository.decodeOpt e, created_at := RedisProcessRepository.decodeOpt (pi.created_at.getD ""), completed_at := RedisProcessRepository.decodeOpt t } :=
                redis_get_save_self_noresult pt s _ hpr
              have hlr1 : List.lookup pi.process_id s.results = none := by
                rw [hpid]; exact hlr0
              rw [hlr1] at h1
              refine ⟨?_, ?_, fun pid2 hm2 => redis_aux_save pt s _ haux pid2 hm2⟩
              · intro pid2 r2 hg2
                by_cases hp : pid2 = pi.process_id
                · subst hp
                  rw [h1] at hg2
                  rw [← Option.some_inj.mp hg2]
                  refine Or.inr (Or.inr ⟨rfl, ?_, rfl⟩)
                  show (RedisProcessRepository.decodeOpt e).isSome = true
                  unfold RedisProcessRepository.decodeOpt
                  simp [hene]
                · have h2 : RedisProcessRepository.get (RedisProcessRepository.save pt s
                      { pi with status := "failed", error := some e, completed_at := some t })
                      pid2 = RedisProcessRepository.get s pid2 :=
                    (redisRepo_laws pt).get_save_other s _ pid2 hp
                  rw [h2] at hg2
                  exact hshape pid2 r2 hg2
              · intro pid2 r2 hg2
                by_cases hp : pid2 = pi.process_id
                · subst hp
                  rw [h1] at hg2
                  rw [← Option.some_inj.mp hg2]
                · have h2 : RedisProcessRepository.get (RedisProcessRepository.save pt s
                      { pi with status := "failed", error := some e, completed_at := some t })
                      pid2 = RedisProcessRepository.get s pid2 :=
                    (redisRepo_laws pt).get_save_other s _ pid2 hp
                  rw [h2] at hg2
                  exact hid pid2 r2 hg2

/-- Over any well-disciplined trace, every record readable from the
in-memory store keeps one of the three record shapes. -/
theorem mem_goodtrace_shape (ops : List ProcessManager.MOp) :
    ∀ s : InMemoryProcessRepository.Storage,
    (∀ pid r, InMemoryProcessRepository.get s pid = some r → recShape r) →
    GoodTrace memRepo s ops →
    ∀ pid r,
      InMemoryProcessRepository.get (ProcessManager.applyOps memRepo s ops) pid = some r →
      recShape r := by
  induction ops with
  | nil => intro s hinv _ pid r hg; exact hinv pid r hg
  | cons op rest ih =>
      intro s hinv hgood pid r hg
      cases hgood with
      | create s pid0 q t ops hfresh ht hrest =>
          refine ih _ ?_ hrest pid r hg
          exact mem_inv_preserved s _ hinv
            (by intro a b c d hco; exact ProcessManager.MOp.noConfusion hco)
      | execute s pid0 q outcome t ops hpend0 herr0 ht hrest =>
          refine ih _ ?_ hrest pid r hg
          refine mem_inv_preserved s _ hinv ?_
          intro a b c d hco r2 hgr
          injection hco with h1 h2 h3 h4
          subst h1
          exact hpend0 r2 hgr

/-- Over any well-disciplined trace, the Redis store invariant is kept. -/
theorem redis_goodtrace_shape (pt : String → Int) (ops : List ProcessManager.MOp) :
    ∀ s : RedisProcessRepository.RedisState,
    RedisInv s →
    GoodTrace (redisRepo pt) s ops →
    ∀ pid r,
      RedisProcessRepository.get (ProcessManager.applyOps (redisRepo pt) s ops) pid = some r →
      recShape r := by
  induction ops with
  | nil => intro s hinv _ pid r hg; exact hinv.1 pid r hg
  | cons op rest ih =>
      intro s hinv hgood pid r hg
      cases hgood with
      | create s pid0 q t ops hfresh ht hrest =>
          refine ih _ ?_ hrest pid r hg
          refine redis_inv_preserved pt s _ hinv ?_
            (by intro a b c d hco; exact ProcessManager.MOp.noConfusion hco)
            (by intro a b c d hco; exact ProcessManager.MOp.noConfusion hco)
          intro a b c hco
          injection hco with h1 h2 h3
          subst h1
          exact hfresh
      | execute s pid0 q outcome t ops hpend0 herr0 ht hrest =>
          refine ih _ ?_ hrest pid r hg
          refine redis_inv_preserved pt s _ hinv
            (by intro a b c hco; exact ProcessManager.MOp.noConfusion hco) ?_ ?_
          · intro a b c d hco r2 hgr
            injection hco with h1 h2 h3 h4
            subst h1
            exact hpend0 r2 hgr
          · intro a b e d hco
            injection hco with h1 h2 h3 h4
            exact herr0 e h3

/-- C3 (amended).  Starting from an empty store, over every
well-disciplined sequence of manager operations — creates target fresh ids,
`execute_process` only ever runs against a still-`pending` record, failures
carry a non-empty message — every record observed through `get_process`
satisfies both equivalences: `result` is non-null iff the status is
`completed`, and `error` is non-null iff the status is `failed`.  (Without
that discipline the claim is false: see the counterexample.) -/
theorem c3_result_error_iff_amended :
    (∀ ops : List ProcessManager.MOp,
      GoodTrace memRepo [] ops →
      ∀ pid r,
        ProcessManager.get_process memRepo (ProcessManager.applyOps memRepo [] ops) pid
          = some r →
        (r.result.isSome ↔ r.status = "completed")
        ∧ (r.error.isSome ↔ r.status = "failed"))
    ∧ (∀ (pt : String → Int) (ops : List ProcessManager.MOp),
      GoodTrace (redisRepo pt) RedisProcessRepository.emptyState ops →
      ∀ pid r,
        ProcessManager.get_process (redisRepo pt)
          (ProcessManager.applyOps (redisRepo pt) RedisProcessRepository.emptyState ops) pid
          = some r →
        (r.result.isSome ↔ r.status = "completed")
        ∧ (r.error.isSome ↔ r.status = "failed")) := by
  constructor
  · intro ops hgood pid r hg
    refine recShape_iff r (mem_goodtrace_shape ops [] ?_ hgood pid r hg)
    intro pid2 r2 h2
    exact Option.noConfusion h2
  · intro pt ops hgood pid r hg
    refine recShape_iff r (redis_goodtrace_shape pt ops RedisProcessRepository.emptyState
      ⟨?_, ?_, fun pid2 _ => rfl⟩ hgood pid r hg)
    · intro pid2 r2 h2
      exact Option.noConfusion h2
    · intro pid2 r2 h2
      exact Option.noConfusion h2

/-- A two-step disciplined trace: one create, then a failing execute. -/
def c3ops : List ProcessManager.MOp :=
  [ ProcessManager.MOp.create "p1" "Should we migrate the database?" "2024-01-01T00:00:00"
  , ProcessManager.MOp.execute "p1" (some "Should we migrate the database?")
      (Except.error "boom") "2024-01-01T00:01:00" ]

/-- The record `c3ops` leaves in the store under `"p1"`. -/
def c3rec : ProcessInfo :=
  { process_id := "p1", query := "Should we migrate the database?", status := "failed", result := none, error := some "boom", created_at := some "2024-01-01T00:00:00", completed_at := some "2024-01-01T00:01:00" }

theorem c3_witness :
    (c3rec.result.isSome ↔ c3rec.status = "completed")
    ∧ (c3rec.error.isSome ↔ c3rec.status = "failed") := by
  refine c3_result_error_iff_amended.1 c3ops ?_ "p1" c3rec (by rfl)
  refine GoodTrace.create _ _ _ _ _ rfl (by decide) ?_
  refine GoodTrace.execute _ _ _ _ _ _ ?_ ?_ (by decide) (GoodTrace.nil _)
  · intro r h
    have h2 : some { process_id := "p1", query := "Should we migrate the database?", status := "pending", result := (none : Option DecisionState), error := (none : Option String), created_at := some "2024-01-01T00:00:00", completed_at := (none : Option String) } = some r := h
    injection h2 with h3
    rw [← h3]
  · intro e he
    injection he with h4
    rw [← h4]
    decide

/-! ## C6: what the evaluators pass to their validating call -/

/-- Any value of the rendered dict occurs in the `format_as_xml` output. -/
theorem strContains_formatAsXml (pairs : List (String × String)) (v : String)
    (h : v ∈ pairs.map (fun p => p.2)) : strContains (formatAsXml pairs) v := by
  induction pairs with
  | nil => simp at h
  | cons p rest ih =>
      obtain ⟨k1, v1⟩ := p
      rcases List.mem_cons.mp h with h | h
      · subst h
        refine ⟨("<" ++ k1 ++ ">").data, ("</" ++ k1 ++ ">\n" ++ formatAsXml rest).data, ?_⟩
        simp [formatAsXml]
      · obtain ⟨l, r, hlr⟩ := ih h
        refine ⟨("<" ++ k1 ++ ">" ++ v1 ++ "</" ++ k1 ++ ">\n").data ++ l, r, ?_⟩
        simp [formatAsXml, ← hlr]

/-- C6 counterexample.  For the stage-6/8/9 evaluators the validating call
does **not** contain the stage's raw answer: with `decision_drafted = "d"`,
the answer `"zzz"` occurs nowhere in the input of
`Evaluate_EstablishGoals`'s, `Evaluate_UpdateDraft`'s or
`Evaluate_GenerationOfAlternatives`'s Reasoning Service call. -/
theorem c6_counterexample :
    ¬ strContains
        (formatAsXml (evaluatorContext { decision_drafted := "d" }
          (.Evaluate_EstablishGoals "zzz"))) "zzz"
    ∧ ¬ strContains
        (formatAsXml (evaluatorContext { decision_drafted := "d" }
          (.Evaluate_UpdateDraft "zzz"))) "zzz"
    ∧ ¬ strContains
        (formatAsXml (evaluatorContext { decision_drafted := "d" }
          (.Evaluate_GenerationOfAlternatives "zzz"))) "zzz" := by
  decide

/-- C6 amended.  The evaluators of stages 2–5 (IdentifyTrigger,
AnalyzeRootCause, ScopeDefinition, Drafting) do pass the stage's raw answer
inside the context of their validating Reasoning Service call, for every
possible answer string; the evaluators of stages 6, 8 and 9
(EstablishGoals, UpdateDraft, GenerationOfAlternatives) pass a context that
is a function of `decision_drafted` alone — the same input regardless of
the answer being validated. -/
theorem c6_evaluator_context_amended :
    (∀ (st : DecisionState) (ans : String),
        strContains (formatAsXml (evaluatorContext st (.Evaluate_IdentifyTrigger ans))) ans
        ∧ strContains (formatAsXml (evaluatorContext st (.Evaluate_AnalyzeRootCause ans))) ans
        ∧ strContains (formatAsXml (evaluatorContext st (.Evaluate_ScopeDefinition ans))) ans
        ∧ strContains (formatAsXml (evaluatorContext st (.Evaluate_Drafting ans))) ans)
    ∧ (∀ (st : DecisionState) (a b : String),
        evaluatorContext st (.Evaluate_EstablishGoals a)
          = evaluatorContext st (.Evaluate_EstablishGoals b)
        ∧ evaluatorContext st (.Evaluate_UpdateDraft a)
          = evaluatorContext st (.Evaluate_UpdateDraft b)
        ∧ evaluatorContext st (.Evaluate_GenerationOfAlternatives a)
          = evaluatorContext st (.Evaluate_GenerationOfAlternatives b)) := by
  refine ⟨fun st ans => ⟨?_, ?_, ?_, ?_⟩, fun st a b => ⟨rfl, rfl, rfl⟩⟩ <;>
    exact strContains_formatAsXml _ _ (by simp [evaluatorContext])

/-- Witness for C6's amended theorem at a concrete state and answer. -/
theorem c6_witness :
    strContains
      (formatAsXml (evaluatorContext { decision_requested := "q", trigger := "t" }
        (.Evaluate_AnalyzeRootCause "the root cause"))) "the root cause" :=
  ((c6_evaluator_context_amended.1 { decision_requested := "q", trigger := "t" }
    "the root cause").2).1

/-- Witness for C10 at concrete inputs: `"too short"` is invalid (stripped
length 9) and the route rejects it leaving the (empty in-memory) repository
unchanged; a well-formed query validates to `True`. -/
theorem c10_witness :
    invalidQuery "too short"
    ∧ DecisionService.validate_decision_query "Should I migrate to microservices?" = .ok true
    ∧ ∃ e, start_decision_async memRepo ([] : InMemoryProcessRepository.Storage)
        "too short" "process_abc" "2024-01-01T00:00:00+00:00" = (.error (400, e), []) := by
  refine ⟨by decide, ?_, ?_⟩
  · exact (c10_validate_decision_query_exact "Should I migrate to microservices?").2.1
      (by decide)
  · exact (c10_validate_decision_query_exact "too short").2.2 memRepo [] "process_abc"
      "2024-01-01T00:00:00+00:00" (by decide)

/-! ## C4: repository round-trip -/

/-- The record of the test suite's round-trip test
(tests/test_repository.py:29), with a creation timestamp. -/
def c4rec : ProcessInfo :=
  { process_id := "test-123", query := "Should I test this?", status := "pending", result := none, error := none, created_at := some "2024-01-01T00:00:00", completed_at := none }

/-- C4.  In this model — whose `ProcessInfo` restores the `query` field
that `domain.py`'s class body is missing (see the note at `ProcessInfo`) —
both backends round-trip the test suite's record field-for-field:
`save(r); get(r.process_id) = r`.  The actual code diverges from this
intended contract: `ProcessInfo` declares no `query` field and is
configured with `extra="ignore"`, so the `query=...` kwarg used by
the manager, the tests and the API layer is silently dropped, the
`retrieved.query` assertion of tests/test_repository.py:44 would raise
`AttributeError`, and so would `process.query` at redis_repository.py:361
on every Redis save. -/
theorem c4_roundtrip_intended_model :
    InMemoryProcessRepository.get (InMemoryProcessRepository.save [] c4rec) "test-123"
      = some c4rec
    ∧ RedisProcessRepository.get
        (RedisProcessRepository.save (fun _ => 0) RedisProcessRepository.emptyState c4rec)
        "test-123"
      = some c4rec :=
  ⟨rfl, rfl⟩

/-! ## C9: the two `get_stats` implementations disagree on `pending` -/

/-- A single pending record stored in both backends. -/
def c9rec : ProcessInfo :=
  { process_id := "s1", query := "q", status := "pending", result := none, error := none, created_at := some "2024-01-01T00:00:00", completed_at := none }

/-- C9.  On identical single-record stores the two `get_stats` disagree:
the in-memory implementation's dict has no `pending` key at all
(redis_repository.py:176 counts only `running`/`completed`/`failed`),
while the Redis implementation returns `pending ↦ 1`
(redis_repository.py:553) — even though the repository's own test
(tests/test_repository.py:163) asserts `"pending" in stats`.  The `total`
counts agree. -/
theorem c9_get_stats_divergence :
    List.lookup "pending"
        (InMemoryProcessRepository.get_stats (InMemoryProcessRepository.save [] c9rec))
      = none
    ∧ List.lookup "pending"
        (RedisProcessRepository.get_stats
          (RedisProcessRepository.save (fun _ => 0) RedisProcessRepository.emptyState c9rec))
      = some 1
    ∧ List.lookup "total"
        (InMemoryProcessRepository.get_stats (InMemoryProcessRepository.save [] c9rec))
      = some 1
    ∧ List.lookup "total"
        (RedisProcessRepository.get_stats
          (RedisProcessRepository.save (fun _ => 0) RedisProcessRepository.emptyState c9rec))
      = some 1 :=
  ⟨rfl, rfl, rfl, rfl⟩

end MasDm
